import Mathlib

/-!
Verification development for the 302ai/ai-sdk response-normalization engine.

The definitions below are a shallow embedding of the TypeScript source:
* the streaming decoder of `AI302LanguageModel.doStream`
  (src/packages/ai/src/ai302-language-model.ts, lines 557-787),
* the non-streaming content assembly of `AI302LanguageModel.doGenerate`
  (same file, lines 504-529),
* the attempt-budgeted task poller `AI302SpeechModel.pollForResult`
  (src/unnamed/part_015, lines 145-192) together with the artifact-download
  step of `doGenerate` that follows it,
* the wall-clock-budgeted task poller `KlingO1Handler.pollTask`
  (src/packages/ai/src/models/kling-o1.ts, lines 32-92).

JavaScript-specific behaviour is modelled explicitly: `undefined`/`null`
become `Option.none`, string truthiness becomes "present and non-empty",
sparse array assignment `toolCalls[index] = v` becomes `setTC` (padding the
list with `none`), and `generateId()` is modelled by an identifier supply
`gen : Nat -> String` consumed at a counter carried in the decoder state.
-/

namespace AI302

/-! ## Upstream streaming frame shapes (openaiChatChunkSchema)

Schema fields that the decoder never reads (`role`, `refusal`, `logprobs`,
`system_fingerprint`, `index`, `audio_tokens`, prediction-token details,
`input_tokens`, `output_tokens`) are kept only where they sit on the usage
object the decoder copies from; purely decorative fields are omitted. -/

structure PromptTokensDetails where
  cached_tokens : Option Nat
  deriving DecidableEq, Repr

structure CompletionTokensDetails where
  reasoning_tokens : Option Nat
  deriving DecidableEq, Repr

structure TokenUsage where
  prompt_tokens : Option Nat
  completion_tokens : Option Nat
  total_tokens : Option Nat
  prompt_tokens_details : Option PromptTokensDetails
  completion_tokens_details : Option CompletionTokensDetails
  deriving DecidableEq, Repr

structure ToolCallFunctionDelta where
  name : Option String
  arguments : Option String
  deriving DecidableEq, Repr

structure ToolCallDelta where
  index : Nat
  id : Option String
  function : ToolCallFunctionDelta
  deriving DecidableEq, Repr

structure ChunkDelta where
  content : Option String
  reasoning_content : Option String
  reasoning : Option String
  tool_calls : Option (List ToolCallDelta)
  deriving DecidableEq, Repr

structure ChunkChoice where
  delta : Option ChunkDelta
  finish_reason : Option String
  deriving DecidableEq, Repr

structure Chunk where
  id : Option String
  created : Option Int
  model : Option String
  choices : List ChunkChoice
  usage : Option TokenUsage
  deriving DecidableEq, Repr

/-- One frame handed to the transform: either a successfully parsed chunk or
a parse failure carrying its error (the error value is abstracted to a
string). -/
inductive ParseOutcome (α : Type) where
  | success (value : α)
  | failure (error : String)
  deriving DecidableEq, Repr

def ParseOutcome.isSuccess : ParseOutcome α → Bool
  | .success _ => true
  | .failure _ => false

/-! ## Canonical stream events (LanguageModelV3StreamPart, as emitted here)

Tool events additionally record the upstream tool-call position (the
source's `toolCallDelta.index` / flush iteration index); the TypeScript
event only carries the id, but the position determines which logical span
an event belongs to, which is what the specification's claims quantify
over.  The `stream-start` warnings payload is opaque to the decoder and is
omitted. -/

inductive FinishReason where
  | stop | length | contentFilter | toolCalls | unknown | error
  deriving DecidableEq, Repr

/-- `mapOpenAIFinishReason` (source lines 258-274). -/
def mapOpenAIFinishReason : Option String → FinishReason
  | some "stop" => .stop
  | some "length" => .length
  | some "content_filter" => .contentFilter
  | some "function_call" => .toolCalls
  | some "tool_calls" => .toolCalls
  | _ => .unknown

/-- The usage object placed on the `finish` event (source lines 767-779).
Fields that are always `undefined` there (`noCache`, `cacheWrite`, `text`)
are omitted. -/
structure FinishUsage where
  inputTotal : Option Nat
  cacheRead : Option Nat
  outputTotal : Option Nat
  outputReasoning : Option Nat
  deriving DecidableEq, Repr

inductive StreamPart where
  | streamStart
  | responseMetadata (id : Option String) (modelId : Option String) (created : Option Int)
  | textStart (id : String)
  | textDelta (id : String) (delta : String)
  | textEnd (id : String)
  | reasoningStart (id : String)
  | reasoningDelta (id : String) (delta : String)
  | reasoningEnd (id : String)
  | toolInputStart (pos : Nat) (id : String) (toolName : String)
  | toolInputDelta (pos : Nat) (id : String) (delta : String)
  | toolInputEnd (pos : Nat) (id : String)
  | toolCall (pos : Nat) (toolCallId : String) (toolName : String) (input : String)
  | errorPart (error : String)
  | finish (finishReason : FinishReason) (usage : FinishUsage)
  deriving DecidableEq, Repr

/-! ## Decoder state (the closure variables of `doStream`, lines 583-608) -/

structure ToolCallState where
  id : String
  name : String
  arguments : String
  hasFinished : Bool
  deriving DecidableEq, Repr

structure UsageAcc where
  promptTokens : Option Nat
  completionTokens : Option Nat
  totalTokens : Option Nat
  reasoningTokens : Option Nat
  cachedTokens : Option Nat
  deriving DecidableEq, Repr

structure DecoderState where
  toolCalls : List (Option ToolCallState)
  finishReason : FinishReason
  usage : UsageAcc
  isFirstChunk : Bool
  isActiveReasoning : Bool
  isActiveText : Bool
  nextId : Nat
  deriving DecidableEq, Repr

def initState : DecoderState :=
  { toolCalls := []
    finishReason := .unknown
    usage := ⟨none, none, none, none, none⟩
    isFirstChunk := true
    isActiveReasoning := false
    isActiveText := false
    nextId := 0 }

/-- Sparse-array read `toolCalls[index]` (a hole or out-of-range read is
`undefined`). -/
def getTC : List (Option ToolCallState) → Nat → Option ToolCallState
  | [], _ => none
  | h :: _, 0 => h
  | _ :: t, i + 1 => getTC t i

/-- Sparse-array write `toolCalls[index] = v`: assigning past the end fills
the gap with holes, as in JavaScript. -/
def setTC : List (Option ToolCallState) → Nat → ToolCallState → List (Option ToolCallState)
  | [], 0, v => [some v]
  | [], i + 1, v => none :: setTC [] i v
  | _ :: t, 0, v => some v :: t
  | h :: t, i + 1, v => h :: setTC t i v

/-- JavaScript string truthiness for an optional string: present and
non-empty. -/
def truthyStr : Option String → Bool
  | some s => !(s == "")
  | none => false

/-- Usage accumulation (source lines 640-650): `prompt_tokens`,
`completion_tokens` and `total_tokens` are assigned unconditionally
(`?? undefined` clobbers them with `undefined` when the frame's usage
object omits them), while `reasoning_tokens` and `cached_tokens` are
assigned only when non-null. -/
def applyUsage (acc : UsageAcc) (u : TokenUsage) : UsageAcc :=
  { promptTokens := u.prompt_tokens
    completionTokens := u.completion_tokens
    totalTokens := u.total_tokens
    reasoningTokens :=
      match u.completion_tokens_details.bind (·.reasoning_tokens) with
      | some r => some r
      | none => acc.reasoningTokens
    cachedTokens :=
      match u.prompt_tokens_details.bind (·.cached_tokens) with
      | some c => some c
      | none => acc.cachedTokens }

def applyUsageOpt (acc : UsageAcc) : Option TokenUsage → UsageAcc
  | none => acc
  | some u => applyUsage acc u

/-- Finish-reason update (source lines 655-657). -/
def applyFinishReason (fr : FinishReason) : Option String → FinishReason
  | none => fr
  | some s => mapOpenAIFinishReason (some s)

/-- Reasoning-content handling (source lines 666-677). -/
def processReasoning (s : DecoderState) (rc : Option String) :
    DecoderState × List StreamPart :=
  match rc with
  | some r =>
    if r = "" then (s, [])
    else if s.isActiveReasoning then
      (s, [.reasoningDelta "reasoning-0" r])
    else
      ({ s with isActiveReasoning := true },
       [.reasoningStart "reasoning-0", .reasoningDelta "reasoning-0" r])
  | none => (s, [])

/-- Text-content handling (source lines 680-690). -/
def processText (s : DecoderState) (c : Option String) :
    DecoderState × List StreamPart :=
  match c with
  | some t =>
    if t = "" then (s, [])
    else if s.isActiveText then
      (s, [.textDelta "txt-0" t])
    else
      ({ s with isActiveText := true },
       [.textStart "txt-0", .textDelta "txt-0" t])
  | none => (s, [])

/-- One element of the `delta.tool_calls` loop (source lines 694-737). -/
def processToolCallDelta (gen : Nat → String) (s : DecoderState)
    (tcd : ToolCallDelta) : DecoderState × List StreamPart :=
  let index := tcd.index
  match getTC s.toolCalls index with
  | none =>
    let idPair : String × Nat :=
      match tcd.id with
      | some i => (i, s.nextId)
      | none => (gen s.nextId, s.nextId + 1)
    let toolCallId := idPair.1
    let toolName := tcd.function.name.getD ""
    let args := tcd.function.arguments.getD ""
    let tc : ToolCallState := ⟨toolCallId, toolName, args, false⟩
    ({ s with toolCalls := setTC s.toolCalls index tc, nextId := idPair.2 },
     .toolInputStart index toolCallId toolName ::
       (if args.length > 0 then [.toolInputDelta index toolCallId args] else []))
  | some tc =>
    match tc.hasFinished, tcd.function.arguments with
    | false, some a =>
      if a = "" then (s, [])
      else
        ({ s with toolCalls :=
             setTC s.toolCalls index { tc with arguments := tc.arguments ++ a } },
         [.toolInputDelta index tc.id a])
    | _, _ => (s, [])

def processToolCallDeltas (gen : Nat → String) (s : DecoderState) :
    List ToolCallDelta → DecoderState × List StreamPart
  | [] => (s, [])
  | tcd :: rest =>
    let r1 := processToolCallDelta gen s tcd
    let r2 := processToolCallDeltas gen r1.1 rest
    (r2.1, r1.2 ++ r2.2)

/-- The content part of the transform for one successfully parsed chunk,
after metadata/usage/finish-reason handling (source lines 663-738). -/
def processDelta (gen : Nat → String) (s : DecoderState) (delta : ChunkDelta) :
    DecoderState × List StreamPart :=
  let r1 := processReasoning s (delta.reasoning_content.or delta.reasoning)
  let r2 := processText r1.1 delta.content
  let r3 :=
    match delta.tool_calls with
    | some l => processToolCallDeltas gen r2.1 l
    | none => (r2.1, [])
  (r3.1, r1.2 ++ r2.2 ++ r3.2)

/-- `transform(chunk, controller)` (source lines 620-739): the state update
and the events enqueued for one inbound frame. -/
def processChunk (gen : Nat → String) (s : DecoderState) :
    ParseOutcome Chunk → DecoderState × List StreamPart
  | .failure e => ({ s with finishReason := .error }, [.errorPart e])
  | .success v =>
    let mr : DecoderState × List StreamPart :=
      if s.isFirstChunk then
        ({ s with isFirstChunk := false },
         [.responseMetadata v.id v.model v.created])
      else (s, [])
    let s1 := mr.1
    let s2 := { s1 with usage := applyUsageOpt s1.usage v.usage }
    let choiceOpt := v.choices.head?
    let s3 := { s2 with
      finishReason := applyFinishReason s2.finishReason (choiceOpt.bind (·.finish_reason)) }
    match choiceOpt.bind (·.delta) with
    | none => (s3, mr.2)
    | some d =>
      let r := processDelta gen s3 d
      (r.1, mr.2 ++ r.2)

/-- Flush of the per-position tool-call records (source lines 753-761):
every record not marked finished yields `tool-input-end` then `tool-call`,
in ascending position order. -/
def flushToolEvents : Nat → List (Option ToolCallState) → List StreamPart
  | _, [] => []
  | i, none :: rest => flushToolEvents (i + 1) rest
  | i, some tc :: rest =>
    (if tc.hasFinished then []
     else [.toolInputEnd i tc.id, .toolCall i tc.id tc.name tc.arguments])
      ++ flushToolEvents (i + 1) rest

def finishUsageOf (u : UsageAcc) : FinishUsage :=
  ⟨u.promptTokens, u.cachedTokens, u.completionTokens, u.reasoningTokens⟩

/-- `flush(controller)` (source lines 741-781). -/
def flushState (s : DecoderState) : List StreamPart :=
  (if s.isActiveReasoning then [.reasoningEnd "reasoning-0"] else [])
    ++ (if s.isActiveText then [.textEnd "txt-0"] else [])
    ++ flushToolEvents 0 s.toolCalls
    ++ [.finish s.finishReason (finishUsageOf s.usage)]

def runFrames (gen : Nat → String) (s : DecoderState) :
    List (ParseOutcome Chunk) → DecoderState × List StreamPart
  | [] => (s, [])
  | f :: fs =>
    let r1 := processChunk gen s f
    let r2 := runFrames gen r1.1 fs
    (r2.1, r1.2 ++ r2.2)

/-- The full decoded event sequence for a frame sequence: the `start`
callback's `stream-start`, the per-frame transform output, then the flush
output. -/
def decodeStream (gen : Nat → String) (frames : List (ParseOutcome Chunk)) :
    List StreamPart :=
  let r := runFrames gen initState frames
  .streamStart :: (r.2 ++ flushState r.1)

/-! ## Event classification -/

def StreamPart.isMetadata : StreamPart → Bool
  | .responseMetadata _ _ _ => true
  | _ => false

/-- Content events in the sense of the specification: text, reasoning and
tool events. -/
def StreamPart.isContent : StreamPart → Bool
  | .textStart _ | .textDelta _ _ | .textEnd _ => true
  | .reasoningStart _ | .reasoningDelta _ _ | .reasoningEnd _ => true
  | .toolInputStart _ _ _ | .toolInputDelta _ _ _ | .toolInputEnd _ _ => true
  | .toolCall _ _ _ _ => true
  | _ => false

def StreamPart.isTextStart : StreamPart → Bool
  | .textStart _ => true
  | _ => false

def StreamPart.isTextDelta : StreamPart → Bool
  | .textDelta _ _ => true
  | _ => false

def StreamPart.isTextEnd : StreamPart → Bool
  | .textEnd _ => true
  | _ => false

def StreamPart.isReasoningStart : StreamPart → Bool
  | .reasoningStart _ => true
  | _ => false

def StreamPart.isReasoningDelta : StreamPart → Bool
  | .reasoningDelta _ _ => true
  | _ => false

def StreamPart.isReasoningEnd : StreamPart → Bool
  | .reasoningEnd _ => true
  | _ => false

def StreamPart.isFinishEv : StreamPart → Bool
  | .finish _ _ => true
  | _ => false

def isToolStartAt (p : Nat) : StreamPart → Bool
  | .toolInputStart q _ _ => q == p
  | _ => false

def isToolDeltaAt (p : Nat) : StreamPart → Bool
  | .toolInputDelta q _ _ => q == p
  | _ => false

def isToolEndAt (p : Nat) : StreamPart → Bool
  | .toolInputEnd q _ => q == p
  | _ => false

/-- Events that may occur in the transform phase (everything except the
end/completion events, which the decoder only emits at flush). -/
def StreamPart.isBodyEv : StreamPart → Bool
  | .textEnd _ | .reasoningEnd _ | .toolInputEnd _ _ | .toolCall _ _ _ _
  | .finish _ _ | .streamStart => false
  | _ => true

/-- The `delta` payloads of the `tool-input-delta` events at one tool-call
position, in emission order. -/
def toolDeltas (p : Nat) (l : List StreamPart) : List String :=
  l.filterMap fun e =>
    match e with
    | .toolInputDelta q _ d => if q = p then some d else none
    | _ => none

def concatAll : List String → String
  | [] => ""
  | s :: rest => s ++ concatAll rest

/-! ## Generic list helpers -/

theorem strAppendAssoc (a b c : String) : a ++ b ++ c = a ++ (b ++ c) := by
  apply String.ext
  simp [List.append_assoc]

theorem concatAll_append (l1 l2 : List String) :
    concatAll (l1 ++ l2) = concatAll l1 ++ concatAll l2 := by
  induction l1 with
  | nil =>
    have h : ("" : String) ++ concatAll l2 = concatAll l2 := by
      apply String.ext; simp
    simp [concatAll, h]
  | cons a t ih => simp [concatAll, ih, strAppendAssoc]

theorem takeWhileAppendAll {α : Type} (p : α → Bool) (l1 l2 : List α)
    (h : l1.all p = true) : (l1 ++ l2).takeWhile p = l1 ++ l2.takeWhile p := by
  induction l1 with
  | nil => simp
  | cons a t ih =>
    simp only [List.all_cons, Bool.and_eq_true] at h
    simp [List.takeWhile_cons, h.1, ih h.2]

theorem takeWhileAppendStop {α : Type} (p : α → Bool) (l1 l2 : List α)
    (h : ¬ l1.all p = true) : (l1 ++ l2).takeWhile p = l1.takeWhile p := by
  induction l1 with
  | nil => simp at h
  | cons a t ih =>
    by_cases ha : p a
    · simp only [List.all_cons, ha, Bool.true_and] at h
      simp [List.takeWhile_cons, ha, ih h]
    · simp [List.takeWhile_cons, ha]

theorem dropWhileAppendAll {α : Type} (p : α → Bool) (l1 l2 : List α)
    (h : l1.all p = true) : (l1 ++ l2).dropWhile p = l2.dropWhile p := by
  induction l1 with
  | nil => simp
  | cons a t ih =>
    simp only [List.all_cons, Bool.and_eq_true] at h
    simp [List.dropWhile_cons, h.1, ih h.2]

theorem dropWhileAll {α : Type} (p : α → Bool) (l : List α)
    (h : l.all p = true) : l.dropWhile p = [] := by
  induction l with
  | nil => simp
  | cons a t ih =>
    simp only [List.all_cons, Bool.and_eq_true] at h
    simp [List.dropWhile_cons, h.1, ih h.2]

theorem countPEqZeroOfAllNot {α : Type} (p q : α → Bool) (l : List α)
    (hall : l.all q = true) (himp : ∀ a, q a = true → p a = false) :
    l.countP p = 0 := by
  induction l with
  | nil => simp
  | cons a t ih =>
    simp only [List.all_cons, Bool.and_eq_true] at hall
    simp [List.countP_cons, himp a hall.1, ih hall.2]

theorem strAppendEmpty (s : String) : s ++ "" = s := by
  apply String.ext; simp

theorem strLengthPos (s : String) : 0 < s.length ↔ ¬ s = "" := by
  cases s with
  | mk data =>
    cases data <;> simp [String.length]
    intro h
    exact absurd (congrArg String.data h) (by simp)

/-! ## Sparse-array lemmas -/

theorem getTC_setTC_self (l : List (Option ToolCallState)) (i : Nat)
    (v : ToolCallState) : getTC (setTC l i v) i = some v := by
  induction l generalizing i with
  | nil =>
    induction i with
    | zero => rfl
    | succ j ih => simpa [setTC, getTC] using ih
  | cons h t ih =>
    cases i with
    | zero => rfl
    | succ j => simpa [setTC, getTC] using ih j

theorem getTC_setTC_ne (l : List (Option ToolCallState)) (i j : Nat)
    (v : ToolCallState) (hne : j ≠ i) : getTC (setTC l i v) j = getTC l j := by
  induction l generalizing i j with
  | nil =>
    induction i generalizing j with
    | zero =>
      cases j with
      | zero => exact absurd rfl hne
      | succ k => rfl
    | succ m ih =>
      cases j with
      | zero => rfl
      | succ k => simpa [setTC, getTC] using ih k (by omega)
  | cons h t ih =>
    cases i with
    | zero =>
      cases j with
      | zero => exact absurd rfl hne
      | succ k => rfl
    | succ m =>
      cases j with
      | zero => rfl
      | succ k => simpa [setTC, getTC] using ih m k (by omega)

/-! ## Decoder invariant

`Inv s body` relates the decoder state to the events emitted so far by the
transform phase (`body` excludes the initial `stream-start` and the flush
output). -/

def MetaBeforeContent (l : List StreamPart) : Prop :=
  (l.takeWhile (fun e => !e.isMetadata)).all (fun e => !e.isContent) = true

structure Inv (s : DecoderState) (body : List StreamPart) : Prop where
  bodyOnly : body.all StreamPart.isBodyEv = true
  metaCount : body.countP StreamPart.isMetadata = (if s.isFirstChunk then 0 else 1)
  firstClean : s.isFirstChunk = true →
    body.all (fun e => !e.isContent) = true ∧ s.isActiveReasoning = false ∧
      s.isActiveText = false ∧ s.toolCalls = []
  metaFirst : MetaBeforeContent body
  textCount : body.countP StreamPart.isTextStart = (if s.isActiveText then 1 else 0)
  reasonCount :
    body.countP StreamPart.isReasoningStart = (if s.isActiveReasoning then 1 else 0)
  toolStartCount : ∀ p,
    body.countP (isToolStartAt p) = (if (getTC s.toolCalls p).isSome then 1 else 0)
  toolArgs : ∀ p tc, getTC s.toolCalls p = some tc →
    tc.hasFinished = false ∧ tc.arguments = concatAll (toolDeltas p body)
  toolNoDeltas : ∀ p, getTC s.toolCalls p = none → toolDeltas p body = []

theorem inv_init : Inv initState [] := by
  constructor <;> simp [initState, MetaBeforeContent, getTC, toolDeltas]

theorem toolDeltas_append (p : Nat) (l1 l2 : List StreamPart) :
    toolDeltas p (l1 ++ l2) = toolDeltas p l1 ++ toolDeltas p l2 := by
  simp [toolDeltas, List.filterMap_append]

theorem notAllNotOfCountPOne {α : Type} (p : α → Bool) (l : List α)
    (h : l.countP p = 1) : ¬ l.all (fun e => !p e) = true := by
  intro hall
  have : l.countP p = 0 :=
    countPEqZeroOfAllNot p (fun e => !p e) l hall (fun a ha => by
      cases hpa : p a
      · rfl
      · simp [hpa] at ha)
  omega

/-- Appending anything after the (already emitted) metadata event keeps
`MetaBeforeContent`. -/
theorem metaFirstExtend (body ev : List StreamPart)
    (hm : body.countP StreamPart.isMetadata = 1)
    (hmf : MetaBeforeContent body) : MetaBeforeContent (body ++ ev) := by
  unfold MetaBeforeContent at *
  rw [takeWhileAppendStop _ _ _ (notAllNotOfCountPOne _ _ hm)]
  exact hmf

/-- Transporting the invariant across a state change that leaves every
field the invariant mentions untouched (usage / finish-reason / id-counter
updates). -/
theorem inv_congr {s s' : DecoderState} {body : List StreamPart}
    (h : Inv s body)
    (h1 : s'.toolCalls = s.toolCalls) (h2 : s'.isFirstChunk = s.isFirstChunk)
    (h3 : s'.isActiveReasoning = s.isActiveReasoning)
    (h4 : s'.isActiveText = s.isActiveText) : Inv s' body := by
  refine ⟨h.bodyOnly, ?_, ?_, h.metaFirst, ?_, ?_, ?_, ?_, ?_⟩
  · rw [h2]; exact h.metaCount
  · intro hf; rw [h2] at hf
    obtain ⟨a, b, c, d⟩ := h.firstClean hf
    exact ⟨a, by rw [h3]; exact b, by rw [h4]; exact c, by rw [h1]; exact d⟩
  · rw [h4]; exact h.textCount
  · rw [h3]; exact h.reasonCount
  · intro p; rw [h1]; exact h.toolStartCount p
  · intro p tc htc; rw [h1] at htc; exact h.toolArgs p tc htc
  · intro p htc; rw [h1] at htc; exact h.toolNoDeltas p htc

/-- Appending events that open no span, carry no metadata and no tool
delta preserves the invariant (used for pure delta events). -/
theorem inv_append_inert (s : DecoderState) (body ev : List StreamPart)
    (h : Inv s body) (hfc : s.isFirstChunk = false)
    (hBody : ev.all StreamPart.isBodyEv = true)
    (hMeta : ev.countP StreamPart.isMetadata = 0)
    (hText : ev.countP StreamPart.isTextStart = 0)
    (hReason : ev.countP StreamPart.isReasoningStart = 0)
    (hTS : ∀ p, ev.countP (isToolStartAt p) = 0)
    (hTD : ∀ p, toolDeltas p ev = []) :
    Inv s (body ++ ev) := by
  have hm1 : body.countP StreamPart.isMetadata = 1 := by
    simp [h.metaCount, hfc]
  refine ⟨?_, ?_, ?_, ?_, ?_, ?_, ?_, ?_, ?_⟩
  · simp [List.all_append, h.bodyOnly, hBody]
  · simp [List.countP_append, h.metaCount, hMeta]
  · intro hf; rw [hfc] at hf; exact absurd hf (by simp)
  · exact metaFirstExtend body ev hm1 h.metaFirst
  · simp [List.countP_append, h.textCount, hText]
  · simp [List.countP_append, h.reasonCount, hReason]
  · intro p; simp [List.countP_append, h.toolStartCount p, hTS p]
  · intro p tc htc
    obtain ⟨hfin, harg⟩ := h.toolArgs p tc htc
    exact ⟨hfin, by simpa [toolDeltas_append, hTD p] using harg⟩
  · intro p htc
    simp [toolDeltas_append, h.toolNoDeltas p htc, hTD p]

theorem pReasoning_isFirstChunk (s : DecoderState) (rc : Option String) :
    (processReasoning s rc).1.isFirstChunk = s.isFirstChunk := by
  unfold processReasoning
  cases rc with
  | none => rfl
  | some r =>
    by_cases hr : r = "" <;> by_cases hA : s.isActiveReasoning <;> simp [hr, hA]

theorem pText_isFirstChunk (s : DecoderState) (c : Option String) :
    (processText s c).1.isFirstChunk = s.isFirstChunk := by
  unfold processText
  cases c with
  | none => rfl
  | some t =>
    by_cases ht : t = "" <;> by_cases hA : s.isActiveText <;> simp [ht, hA]

theorem inv_processReasoning (s : DecoderState) (body : List StreamPart)
    (rc : Option String) (h : Inv s body) (hfc : s.isFirstChunk = false) :
    Inv (processReasoning s rc).1 (body ++ (processReasoning s rc).2) := by
  have hm1 : body.countP StreamPart.isMetadata = 1 := by
    simp [h.metaCount, hfc]
  cases rc with
  | none => simpa [processReasoning] using h
  | some r =>
    by_cases hr : r = ""
    · simpa [processReasoning, hr] using h
    · by_cases hA : s.isActiveReasoning
      · have hEq : processReasoning s (some r) =
            (s, [.reasoningDelta "reasoning-0" r]) := by
          simp [processReasoning, hr, hA]
        rw [hEq]
        refine inv_append_inert s body _ h hfc ?_ ?_ ?_ ?_ ?_ ?_ <;>
          simp [StreamPart.isBodyEv, StreamPart.isMetadata, StreamPart.isTextStart,
            StreamPart.isReasoningStart, isToolStartAt, toolDeltas]
      · have hEq : processReasoning s (some r) =
            ({ s with isActiveReasoning := true },
             [.reasoningStart "reasoning-0", .reasoningDelta "reasoning-0" r]) := by
          simp [processReasoning, hr, hA]
        rw [hEq]
        have hevTD : ∀ p, toolDeltas p
            [StreamPart.reasoningStart "reasoning-0",
             StreamPart.reasoningDelta "reasoning-0" r] = [] := by
          intro p; simp [toolDeltas]
        dsimp only
        refine ⟨?_, ?_, ?_, ?_, ?_, ?_, ?_, ?_, ?_⟩
        · simp [List.all_append, h.bodyOnly, StreamPart.isBodyEv]
        · simp [List.countP_append, h.metaCount, StreamPart.isMetadata]
        · intro hf; rw [hfc] at hf; exact absurd hf (by simp)
        · exact metaFirstExtend body _ hm1 h.metaFirst
        · simp [List.countP_append, h.textCount, StreamPart.isTextStart]
        · have h0 : body.countP StreamPart.isReasoningStart = 0 := by
            rw [h.reasonCount]; simp [hA]
          simp [List.countP_append, h0, StreamPart.isReasoningStart]
        · intro p; simp [List.countP_append, h.toolStartCount p, isToolStartAt]
        · intro p tc htc
          obtain ⟨hfin, harg⟩ := h.toolArgs p tc htc
          exact ⟨hfin, by simpa [toolDeltas_append, hevTD p] using harg⟩
        · intro p htc
          simp [toolDeltas_append, h.toolNoDeltas p htc, hevTD p]

theorem inv_processText (s : DecoderState) (body : List StreamPart)
    (c : Option String) (h : Inv s body) (hfc : s.isFirstChunk = false) :
    Inv (processText s c).1 (body ++ (processText s c).2) := by
  have hm1 : body.countP StreamPart.isMetadata = 1 := by
    simp [h.metaCount, hfc]
  cases c with
  | none => simpa [processText] using h
  | some t =>
    by_cases ht : t = ""
    · simpa [processText, ht] using h
    · by_cases hA : s.isActiveText
      · have hEq : processText s (some t) = (s, [.textDelta "txt-0" t]) := by
          simp [processText, ht, hA]
        rw [hEq]
        refine inv_append_inert s body _ h hfc ?_ ?_ ?_ ?_ ?_ ?_ <;>
          simp [StreamPart.isBodyEv, StreamPart.isMetadata, StreamPart.isTextStart,
            StreamPart.isReasoningStart, isToolStartAt, toolDeltas]
      · have hEq : processText s (some t) =
            ({ s with isActiveText := true },
             [.textStart "txt-0", .textDelta "txt-0" t]) := by
          simp [processText, ht, hA]
        rw [hEq]
        have hevTD : ∀ p, toolDeltas p
            [StreamPart.textStart "txt-0", StreamPart.textDelta "txt-0" t] = [] := by
          intro p; simp [toolDeltas]
        dsimp only
        refine ⟨?_, ?_, ?_, ?_, ?_, ?_, ?_, ?_, ?_⟩
        · simp [List.all_append, h.bodyOnly, StreamPart.isBodyEv]
        · simp [List.countP_append, h.metaCount, StreamPart.isMetadata]
        · intro hf; rw [hfc] at hf; exact absurd hf (by simp)
        · exact metaFirstExtend body _ hm1 h.metaFirst
        · have h0 : body.countP StreamPart.isTextStart = 0 := by
            rw [h.textCount]; simp [hA]
          simp [List.countP_append, h0, StreamPart.isTextStart]
        · simp [List.countP_append, h.reasonCount, StreamPart.isReasoningStart]
        · intro p; simp [List.countP_append, h.toolStartCount p, isToolStartAt]
        · intro p tc htc
          obtain ⟨hfin, harg⟩ := h.toolArgs p tc htc
          exact ⟨hfin, by simpa [toolDeltas_append, hevTD p] using harg⟩
        · intro p htc
          simp [toolDeltas_append, h.toolNoDeltas p htc, hevTD p]

/-- The state update shared by both tool-call branches: store a record at a
position (sparse assignment) and move the id counter. -/
def addToolCall (s : DecoderState) (idx : Nat) (tc : ToolCallState)
    (nid : Nat) : DecoderState :=
  { s with toolCalls := setTC s.toolCalls idx tc, nextId := nid }

/-- Invariant preservation for the first fragment at a tool-call position
(for any synthesized-or-given identifier and any id-counter update). -/
theorem inv_newToolCall (s : DecoderState) (body : List StreamPart)
    (idx : Nat) (tid nm args : String) (nid : Nat)
    (h : Inv s body) (hfc : s.isFirstChunk = false)
    (hg : getTC s.toolCalls idx = none) :
    Inv (addToolCall s idx ⟨tid, nm, args, false⟩ nid)
      (body ++ (.toolInputStart idx tid nm ::
        (if args.length > 0 then [.toolInputDelta idx tid args] else []))) := by
  unfold addToolCall
  have hm1 : body.countP StreamPart.isMetadata = 1 := by simp [h.metaCount, hfc]
  refine ⟨?_, ?_, ?_, ?_, ?_, ?_, ?_, ?_, ?_⟩
  · by_cases ha : args.length > 0 <;>
      simp [ha, List.all_append, h.bodyOnly, StreamPart.isBodyEv]
  · by_cases ha : args.length > 0 <;>
      simp [ha, List.countP_append, h.metaCount, hfc, StreamPart.isMetadata]
  · intro hf; rw [hfc] at hf; exact absurd hf (by simp)
  · exact metaFirstExtend body _ hm1 h.metaFirst
  · by_cases ha : args.length > 0 <;>
      simp [ha, List.countP_append, h.textCount, StreamPart.isTextStart]
  · by_cases ha : args.length > 0 <;>
      simp [ha, List.countP_append, h.reasonCount, StreamPart.isReasoningStart]
  · intro p
    by_cases hp : p = idx
    · subst hp
      have h0 : body.countP (isToolStartAt p) = 0 := by
        simpa [hg] using h.toolStartCount p
      by_cases ha : args.length > 0 <;>
        simp [ha, List.countP_append, h0, isToolStartAt, getTC_setTC_self]
    · rw [getTC_setTC_ne s.toolCalls idx p _ hp]
      have hne : (idx == p) = false := by
        simp only [beq_eq_false_iff_ne, ne_eq]
        exact fun hh => hp hh.symm
      by_cases ha : args.length > 0 <;>
        simp [ha, List.countP_append, h.toolStartCount p, isToolStartAt, hne]
  · intro p tc htc
    by_cases hp : p = idx
    · subst hp
      rw [getTC_setTC_self] at htc
      cases htc
      refine ⟨rfl, ?_⟩
      have hb : toolDeltas p body = [] := h.toolNoDeltas p hg
      rw [toolDeltas_append, hb]
      by_cases ha : args = ""
      · subst ha
        simp [toolDeltas, concatAll]
      · have hlen : args.length > 0 := (strLengthPos args).mpr ha
        simp [toolDeltas, concatAll, hlen, strAppendEmpty]
    · rw [getTC_setTC_ne s.toolCalls idx p _ hp] at htc
      obtain ⟨hfin, harg⟩ := h.toolArgs p tc htc
      refine ⟨hfin, ?_⟩
      have hev : toolDeltas p (StreamPart.toolInputStart idx tid nm ::
          (if args.length > 0 then [StreamPart.toolInputDelta idx tid args] else [])) = [] := by
        by_cases ha : args.length > 0 <;> simp [ha, toolDeltas, Ne.symm hp]
      simpa [toolDeltas_append, hev] using harg
  · intro p htc
    by_cases hp : p = idx
    · subst hp; rw [getTC_setTC_self] at htc; cases htc
    · rw [getTC_setTC_ne s.toolCalls idx p _ hp] at htc
      have hev : toolDeltas p (StreamPart.toolInputStart idx tid nm ::
          (if args.length > 0 then [StreamPart.toolInputDelta idx tid args] else [])) = [] := by
        by_cases ha : args.length > 0 <;> simp [ha, toolDeltas, Ne.symm hp]
      simp [toolDeltas_append, h.toolNoDeltas p htc, hev]

/-- Invariant preservation for a later fragment appended to an existing,
unfinished tool-call record. -/
theorem inv_appendToolCall (s : DecoderState) (body : List StreamPart)
    (idx : Nat) (tc : ToolCallState) (a : String)
    (h : Inv s body) (hfc : s.isFirstChunk = false)
    (hg : getTC s.toolCalls idx = some tc) :
    Inv (addToolCall s idx { tc with arguments := tc.arguments ++ a } s.nextId)
      (body ++ [.toolInputDelta idx tc.id a]) := by
  unfold addToolCall
  have hm1 : body.countP StreamPart.isMetadata = 1 := by simp [h.metaCount, hfc]
  refine ⟨?_, ?_, ?_, ?_, ?_, ?_, ?_, ?_, ?_⟩
  · simp [List.all_append, h.bodyOnly, StreamPart.isBodyEv]
  · simp [List.countP_append, h.metaCount, hfc, StreamPart.isMetadata]
  · intro hf; rw [hfc] at hf; exact absurd hf (by simp)
  · exact metaFirstExtend body _ hm1 h.metaFirst
  · simp [List.countP_append, h.textCount, StreamPart.isTextStart]
  · simp [List.countP_append, h.reasonCount, StreamPart.isReasoningStart]
  · intro p
    by_cases hp : p = idx
    · subst hp
      simp [List.countP_append, h.toolStartCount p, hg, isToolStartAt,
        getTC_setTC_self]
    · rw [getTC_setTC_ne s.toolCalls idx p _ hp]
      simp [List.countP_append, h.toolStartCount p, isToolStartAt]
  · intro p tc' htc
    by_cases hp : p = idx
    · subst hp
      rw [getTC_setTC_self] at htc
      cases htc
      obtain ⟨hfin, harg⟩ := h.toolArgs p tc hg
      refine ⟨hfin, ?_⟩
      have hev : toolDeltas p [StreamPart.toolInputDelta p tc.id a] = [a] := by
        simp [toolDeltas]
      rw [toolDeltas_append, hev, concatAll_append, ← harg]
      simp [concatAll, strAppendEmpty]
    · rw [getTC_setTC_ne s.toolCalls idx p _ hp] at htc
      obtain ⟨hfin, harg⟩ := h.toolArgs p tc' htc
      refine ⟨hfin, ?_⟩
      have hev : toolDeltas p [StreamPart.toolInputDelta idx tc.id a] = [] := by
        simp [toolDeltas, Ne.symm hp]
      simpa [toolDeltas_append, hev] using harg
  · intro p htc
    by_cases hp : p = idx
    · subst hp; rw [getTC_setTC_self] at htc; cases htc
    · rw [getTC_setTC_ne s.toolCalls idx p _ hp] at htc
      have hev : toolDeltas p [StreamPart.toolInputDelta idx tc.id a] = [] := by
        simp [toolDeltas, Ne.symm hp]
      simp [toolDeltas_append, h.toolNoDeltas p htc, hev]

theorem pTCD_isFirstChunk (gen : Nat → String) (s : DecoderState)
    (tcd : ToolCallDelta) :
    (processToolCallDelta gen s tcd).1.isFirstChunk = s.isFirstChunk := by
  cases hg : getTC s.toolCalls tcd.index with
  | none => simp [processToolCallDelta, hg]
  | some tc =>
    cases hfin : tc.hasFinished with
    | true =>
      cases hargs : tcd.function.arguments <;>
        simp [processToolCallDelta, hg, hfin, hargs]
    | false =>
      cases hargs : tcd.function.arguments with
      | none => simp [processToolCallDelta, hg, hfin, hargs]
      | some a =>
        by_cases ha : a = "" <;> simp [processToolCallDelta, hg, hfin, hargs, ha]

theorem inv_processToolCallDelta (gen : Nat → String) (s : DecoderState)
    (body : List StreamPart) (tcd : ToolCallDelta) (h : Inv s body)
    (hfc : s.isFirstChunk = false) :
    Inv (processToolCallDelta gen s tcd).1
      (body ++ (processToolCallDelta gen s tcd).2) := by
  cases hg : getTC s.toolCalls tcd.index with
  | none =>
    rcases hid : tcd.id with _ | i
    · have hEq : processToolCallDelta gen s tcd =
          (addToolCall s tcd.index
             ⟨gen s.nextId, tcd.function.name.getD "",
              tcd.function.arguments.getD "", false⟩ (s.nextId + 1),
           .toolInputStart tcd.index (gen s.nextId) (tcd.function.name.getD "") ::
             (if (tcd.function.arguments.getD "").length > 0
              then [.toolInputDelta tcd.index (gen s.nextId)
                      (tcd.function.arguments.getD "")]
              else [])) := by
        simp [processToolCallDelta, addToolCall, hg, hid]
      rw [hEq]
      exact inv_newToolCall s body tcd.index _ _ _ _ h hfc hg
    · have hEq : processToolCallDelta gen s tcd =
          (addToolCall s tcd.index
             ⟨i, tcd.function.name.getD "",
              tcd.function.arguments.getD "", false⟩ s.nextId,
           .toolInputStart tcd.index i (tcd.function.name.getD "") ::
             (if (tcd.function.arguments.getD "").length > 0
              then [.toolInputDelta tcd.index i (tcd.function.arguments.getD "")]
              else [])) := by
        simp [processToolCallDelta, addToolCall, hg, hid]
      rw [hEq]
      exact inv_newToolCall s body tcd.index _ _ _ _ h hfc hg
  | some tc =>
    cases hfin : tc.hasFinished with
    | true =>
      have hEq : processToolCallDelta gen s tcd = (s, []) := by
        cases tcd.function.arguments <;> simp [processToolCallDelta, hg, hfin]
      rw [hEq]; simpa using h
    | false =>
      rcases hargs : tcd.function.arguments with _ | a
      · have hEq : processToolCallDelta gen s tcd = (s, []) := by
          simp [processToolCallDelta, hg, hfin, hargs]
        rw [hEq]; simpa using h
      · by_cases ha : a = ""
        · have hEq : processToolCallDelta gen s tcd = (s, []) := by
            simp [processToolCallDelta, hg, hfin, hargs, ha]
          rw [hEq]; simpa using h
        · have hEq : processToolCallDelta gen s tcd =
              (addToolCall s tcd.index
                 { tc with arguments := tc.arguments ++ a } s.nextId,
               [.toolInputDelta tcd.index tc.id a]) := by
            simp [processToolCallDelta, addToolCall, hg, hfin, hargs, ha]
          rw [hEq]
          exact inv_appendToolCall s body tcd.index tc a h hfc hg

theorem pTCDs_isFirstChunk (gen : Nat → String) (s : DecoderState)
    (l : List ToolCallDelta) :
    (processToolCallDeltas gen s l).1.isFirstChunk = s.isFirstChunk := by
  induction l generalizing s with
  | nil => rfl
  | cons tcd rest ih =>
    simp only [processToolCallDeltas]
    rw [ih, pTCD_isFirstChunk]

theorem inv_processToolCallDeltas (gen : Nat → String) (s : DecoderState)
    (body : List StreamPart) (l : List ToolCallDelta) (h : Inv s body)
    (hfc : s.isFirstChunk = false) :
    Inv (processToolCallDeltas gen s l).1
      (body ++ (processToolCallDeltas gen s l).2) := by
  induction l generalizing s body with
  | nil => simpa [processToolCallDeltas] using h
  | cons tcd rest ih =>
    simp only [processToolCallDeltas]
    have h1 := inv_processToolCallDelta gen s body tcd h hfc
    have hfc1 : (processToolCallDelta gen s tcd).1.isFirstChunk = false := by
      rw [pTCD_isFirstChunk]; exact hfc
    have h2 := ih _ _ h1 hfc1
    simpa [List.append_assoc] using h2

theorem allNotMetaOfCountZero (body : List StreamPart)
    (hm0 : body.countP StreamPart.isMetadata = 0) :
    body.all (fun e => !e.isMetadata) = true := by
  rw [List.all_eq_true]
  intro e he
  have hz := List.countP_eq_zero.mp hm0 e he
  cases hx : e.isMetadata
  · rfl
  · exact absurd hx hz

theorem inv_metadata (s : DecoderState) (body : List StreamPart) (v : Chunk)
    (h : Inv s body) (hf : s.isFirstChunk = true) :
    Inv { s with isFirstChunk := false }
      (body ++ [.responseMetadata v.id v.model v.created]) := by
  obtain ⟨hclean, hAR, hAT, hTCnil⟩ := h.firstClean hf
  have hm0 : body.countP StreamPart.isMetadata = 0 := by simp [h.metaCount, hf]
  have hev : ∀ p, toolDeltas p
      [StreamPart.responseMetadata v.id v.model v.created] = [] := by
    intro p; simp [toolDeltas]
  refine ⟨?_, ?_, ?_, ?_, ?_, ?_, ?_, ?_, ?_⟩
  · simp [List.all_append, h.bodyOnly, StreamPart.isBodyEv]
  · simp [List.countP_append, hm0, StreamPart.isMetadata]
  · intro hff; simp at hff
  · unfold MetaBeforeContent
    rw [takeWhileAppendAll _ _ _ (allNotMetaOfCountZero body hm0)]
    simp [List.all_append, hclean, List.takeWhile_cons, StreamPart.isMetadata]
  · simp [List.countP_append, h.textCount, StreamPart.isTextStart]
  · simp [List.countP_append, h.reasonCount, StreamPart.isReasoningStart]
  · intro p; simp [List.countP_append, h.toolStartCount p, isToolStartAt]
  · intro p tc htc
    obtain ⟨hfin, harg⟩ := h.toolArgs p tc htc
    exact ⟨hfin, by simpa [toolDeltas_append, hev p] using harg⟩
  · intro p htc
    simp [toolDeltas_append, h.toolNoDeltas p htc, hev p]

theorem inv_failure (s : DecoderState) (body : List StreamPart) (e : String)
    (h : Inv s body) :
    Inv { s with finishReason := .error } (body ++ [.errorPart e]) := by
  have hev : ∀ p, toolDeltas p [StreamPart.errorPart e] = [] := by
    intro p; simp [toolDeltas]
  refine ⟨?_, ?_, ?_, ?_, ?_, ?_, ?_, ?_, ?_⟩
  · simp [List.all_append, h.bodyOnly, StreamPart.isBodyEv]
  · simp [List.countP_append, h.metaCount, StreamPart.isMetadata]
  · intro hf
    obtain ⟨hclean, hAR, hAT, hTCnil⟩ := h.firstClean hf
    refine ⟨?_, hAR, hAT, hTCnil⟩
    rw [List.all_append, hclean]
    rfl
  · by_cases hf : s.isFirstChunk = true
    · obtain ⟨hclean, _, _, _⟩ := h.firstClean hf
      have hm0 : body.countP StreamPart.isMetadata = 0 := by simp [h.metaCount, hf]
      unfold MetaBeforeContent
      rw [takeWhileAppendAll _ _ _ (allNotMetaOfCountZero body hm0)]
      have ht : List.takeWhile (fun x => !x.isMetadata) [StreamPart.errorPart e]
          = [StreamPart.errorPart e] := rfl
      rw [ht, List.all_append, hclean]
      rfl
    · have hfc : s.isFirstChunk = false := by simpa using hf
      have hm1 : body.countP StreamPart.isMetadata = 1 := by simp [h.metaCount, hfc]
      exact metaFirstExtend body _ hm1 h.metaFirst
  · simp [List.countP_append, h.textCount, StreamPart.isTextStart]
  · simp [List.countP_append, h.reasonCount, StreamPart.isReasoningStart]
  · intro p; simp [List.countP_append, h.toolStartCount p, isToolStartAt]
  · intro p tc htc
    obtain ⟨hfin, harg⟩ := h.toolArgs p tc htc
    exact ⟨hfin, by simpa [toolDeltas_append, hev p] using harg⟩
  · intro p htc
    simp [toolDeltas_append, h.toolNoDeltas p htc, hev p]

theorem pDelta_isFirstChunk (gen : Nat → String) (s : DecoderState)
    (d : ChunkDelta) :
    (processDelta gen s d).1.isFirstChunk = s.isFirstChunk := by
  simp only [processDelta]
  cases hm : d.tool_calls <;>
    simp [hm, pTCDs_isFirstChunk, pText_isFirstChunk, pReasoning_isFirstChunk]

theorem inv_processDelta (gen : Nat → String) (s : DecoderState)
    (body : List StreamPart) (d : ChunkDelta) (h : Inv s body)
    (hfc : s.isFirstChunk = false) :
    Inv (processDelta gen s d).1 (body ++ (processDelta gen s d).2) := by
  have h1 := inv_processReasoning s body (d.reasoning_content.or d.reasoning) h hfc
  have hfc1 :
      (processReasoning s (d.reasoning_content.or d.reasoning)).1.isFirstChunk
        = false := by
    rw [pReasoning_isFirstChunk]; exact hfc
  have h2 := inv_processText _ _ d.content h1 hfc1
  have hfc2 :
      (processText (processReasoning s
        (d.reasoning_content.or d.reasoning)).1 d.content).1.isFirstChunk = false := by
    rw [pText_isFirstChunk]; exact hfc1
  cases hm : d.tool_calls with
  | none =>
    simp only [processDelta, hm]
    simpa [List.append_assoc] using h2
  | some l =>
    have h3 := inv_processToolCallDeltas gen _ _ l h2 hfc2
    simp only [processDelta, hm]
    simpa [List.append_assoc] using h3

/-- The metadata / usage / finish-reason prefix of the transform for one
successfully parsed chunk. -/
def metaUsageState (s : DecoderState) (v : Chunk) : DecoderState :=
  let s1 := if s.isFirstChunk then { s with isFirstChunk := false } else s
  let s2 := { s1 with usage := applyUsageOpt s1.usage v.usage }
  { s2 with finishReason :=
      applyFinishReason s2.finishReason ((v.choices.head?).bind (·.finish_reason)) }

def metaEvents (s : DecoderState) (v : Chunk) : List StreamPart :=
  if s.isFirstChunk then [.responseMetadata v.id v.model v.created] else []

theorem processChunk_success (gen : Nat → String) (s : DecoderState) (v : Chunk) :
    processChunk gen s (.success v) =
      (match (v.choices.head?).bind (·.delta) with
       | none => (metaUsageState s v, metaEvents s v)
       | some d => ((processDelta gen (metaUsageState s v) d).1,
                    metaEvents s v ++ (processDelta gen (metaUsageState s v) d).2)) := by
  by_cases hf : s.isFirstChunk <;> cases hd : (v.choices.head?).bind (·.delta) <;>
    simp [processChunk, metaUsageState, metaEvents, hf, hd]

theorem mus_isFirstChunk (s : DecoderState) (v : Chunk) :
    (metaUsageState s v).isFirstChunk = false := by
  by_cases hf : s.isFirstChunk <;> simp [metaUsageState, hf]

theorem inv_metaUsage (s : DecoderState) (body : List StreamPart) (v : Chunk)
    (h : Inv s body) : Inv (metaUsageState s v) (body ++ metaEvents s v) := by
  by_cases hf : s.isFirstChunk
  · have hm := inv_metadata s body v h hf
    have hg : Inv (metaUsageState s v) (body ++ [.responseMetadata v.id v.model v.created]) := by
      refine inv_congr hm ?_ ?_ ?_ ?_ <;> simp [metaUsageState, hf]
    simpa [metaEvents, hf] using hg
  · have hg : Inv (metaUsageState s v) body := by
      refine inv_congr h ?_ ?_ ?_ ?_ <;> simp [metaUsageState, hf]
    simpa [metaEvents, hf] using hg

theorem inv_processChunk (gen : Nat → String) (s : DecoderState)
    (body : List StreamPart) (f : ParseOutcome Chunk) (h : Inv s body) :
    Inv (processChunk gen s f).1 (body ++ (processChunk gen s f).2) := by
  cases f with
  | failure e => simpa [processChunk] using inv_failure s body e h
  | success v =>
    rw [processChunk_success]
    have hmu := inv_metaUsage s body v h
    cases hd : (v.choices.head?).bind (·.delta) with
    | none => simpa using hmu
    | some d =>
      have h4 := inv_processDelta gen _ _ d hmu (mus_isFirstChunk s v)
      simpa [List.append_assoc] using h4

theorem inv_runFrames (gen : Nat → String) (frames : List (ParseOutcome Chunk)) :
    ∀ (s : DecoderState) (body : List StreamPart), Inv s body →
      Inv (runFrames gen s frames).1 (body ++ (runFrames gen s frames).2) := by
  induction frames with
  | nil => intro s body h; simpa [runFrames] using h
  | cons f fs ih =>
    intro s body h
    simp only [runFrames]
    have h1 := inv_processChunk gen s body f h
    have h2 := ih _ _ h1
    simpa [List.append_assoc] using h2

theorem inv_decode (gen : Nat → String) (frames : List (ParseOutcome Chunk)) :
    Inv (runFrames gen initState frames).1 (runFrames gen initState frames).2 := by
  have h := inv_runFrames gen frames initState [] inv_init
  simpa using h

/-! ## Flush-phase lemmas -/

def isToolFlushEv : StreamPart → Bool
  | .toolInputEnd _ _ | .toolCall _ _ _ _ => true
  | _ => false

theorem flushToolEvents_all (l : List (Option ToolCallState)) (i : Nat) :
    (flushToolEvents i l).all isToolFlushEv = true := by
  induction l generalizing i with
  | nil => rfl
  | cons x rest ih =>
    cases x with
    | none => simpa [flushToolEvents] using ih (i + 1)
    | some tc =>
      by_cases hfin : tc.hasFinished <;>
        simp [flushToolEvents, hfin, List.all_append, ih (i + 1), isToolFlushEv]

theorem allImp {α : Type} (q p : α → Bool) (l : List α) (h : l.all q = true)
    (himp : ∀ a, q a = true → p a = true) : l.all p = true := by
  rw [List.all_eq_true] at h ⊢
  exact fun a ha => himp a (h a ha)

theorem allDropWhile {α : Type} (p q : α → Bool) (l : List α)
    (h : l.all p = true) : (l.dropWhile q).all p = true := by
  induction l with
  | nil => simp
  | cons a t ih =>
    simp only [List.all_cons, Bool.and_eq_true] at h
    by_cases hq : q a
    · simp [List.dropWhile_cons, hq, ih h.2]
    · simp [List.dropWhile_cons, hq, h.1, h.2]

theorem takeWhileAll {α : Type} (p : α → Bool) (l : List α)
    (h : l.all p = true) : l.takeWhile p = l := by
  induction l with
  | nil => simp
  | cons a t ih =>
    simp only [List.all_cons, Bool.and_eq_true] at h
    simp [List.takeWhile_cons, h.1, ih h.2]

/-- Below the current iteration index, the flush emits no tool-input-end. -/
theorem flushToolEvents_endCountLow (l : List (Option ToolCallState))
    (i p : Nat) (hp : p < i) :
    (flushToolEvents i l).countP (isToolEndAt p) = 0 := by
  induction l generalizing i with
  | nil => simp [flushToolEvents]
  | cons x rest ih =>
    cases x with
    | none =>
      simpa [flushToolEvents] using ih (i + 1) (by omega)
    | some tc =>
      have hne : (i == p) = false := by
        simp only [beq_eq_false_iff_ne, ne_eq]; omega
      by_cases hfin : tc.hasFinished <;>
        simp [flushToolEvents, hfin, List.countP_append, List.countP_cons,
          isToolEndAt, hne, ih (i + 1) (by omega)]

/-- One `tool-input-end` at position `i + p` exactly when a record exists
there; records are never marked finished by the decoder. -/
theorem flushToolEvents_endCount (l : List (Option ToolCallState))
    (hnf : ∀ q tc, getTC l q = some tc → tc.hasFinished = false) :
    ∀ (i p : Nat), (flushToolEvents i l).countP (isToolEndAt (i + p)) =
      (if (getTC l p).isSome then 1 else 0) := by
  induction l with
  | nil => intro i p; simp [flushToolEvents, getTC]
  | cons x rest ih =>
    intro i p
    have hnf' : ∀ q tc, getTC rest q = some tc → tc.hasFinished = false :=
      fun q tc hq => hnf (q + 1) tc (by simpa [getTC] using hq)
    cases x with
    | none =>
      cases p with
      | zero =>
        have h1 : flushToolEvents i (none :: rest) = flushToolEvents (i + 1) rest := rfl
        have hrest := flushToolEvents_endCountLow rest (i + 1) i (by omega)
        rw [Nat.add_zero, h1, hrest]
        rfl
      | succ k =>
        have h1 : flushToolEvents i (none :: rest) = flushToolEvents (i + 1) rest := rfl
        have h2 : getTC (none :: rest) (k + 1) = getTC rest k := rfl
        have h3 := ih hnf' (i + 1) k
        have harith : i + 1 + k = i + (k + 1) := by omega
        rw [harith] at h3
        rw [h1, h2, h3]
    | some tc =>
      have hfin : tc.hasFinished = false := hnf 0 tc rfl
      have h1 : flushToolEvents i (some tc :: rest) =
          .toolInputEnd i tc.id ::
            .toolCall i tc.id tc.name tc.arguments :: flushToolEvents (i + 1) rest := by
        simp [flushToolEvents, hfin]
      cases p with
      | zero =>
        have hrest := flushToolEvents_endCountLow rest (i + 1) i (by omega)
        rw [Nat.add_zero, h1]
        have hself : (i == i) = true := by simp
        simp [List.countP_cons, isToolEndAt, hrest, getTC]
      | succ k =>
        have h2 : getTC (some tc :: rest) (k + 1) = getTC rest k := rfl
        have h3 := ih hnf' (i + 1) k
        have harith : i + 1 + k = i + (k + 1) := by omega
        rw [harith] at h3
        have hne1 : isToolEndAt (i + (k + 1)) (StreamPart.toolInputEnd i tc.id) = false := by
          show (i == i + (k + 1)) = false
          simp only [beq_eq_false_iff_ne, ne_eq]
          omega
        have hne2 : isToolEndAt (i + (k + 1))
            (StreamPart.toolCall i tc.id tc.name tc.arguments) = false := rfl
        have e1 : List.countP (isToolEndAt (i + (k + 1)))
            (StreamPart.toolInputEnd i tc.id ::
              StreamPart.toolCall i tc.id tc.name tc.arguments ::
                flushToolEvents (i + 1) rest)
            = List.countP (isToolEndAt (i + (k + 1))) (flushToolEvents (i + 1) rest) := by
          rw [List.countP_cons, List.countP_cons]
          simp [hne1, hne2]
        rw [h1, h2, e1, h3]

/-- Every `tool-call` event flushed at position `p` reports exactly the
record stored at that position. -/
theorem flushToolEvents_toolCall_mem (l : List (Option ToolCallState))
    (i p : Nat) (id nm inp : String)
    (hmem : StreamPart.toolCall p id nm inp ∈ flushToolEvents i l) :
    ∃ k tc, p = i + k ∧ getTC l k = some tc ∧ tc.hasFinished = false ∧
      tc.id = id ∧ tc.name = nm ∧ tc.arguments = inp := by
  induction l generalizing i with
  | nil => simp [flushToolEvents] at hmem
  | cons x rest ih =>
    cases x with
    | none =>
      simp only [flushToolEvents] at hmem
      obtain ⟨k, tc, hk, hget, hrest⟩ := ih (i + 1) hmem
      exact ⟨k + 1, tc, by omega, by simpa [getTC] using hget, hrest⟩
    | some tc =>
      by_cases hfin : tc.hasFinished
      · simp only [flushToolEvents, hfin, if_pos, List.nil_append] at hmem
        obtain ⟨k, tc', hk, hget, hrest⟩ := ih (i + 1) hmem
        exact ⟨k + 1, tc', by omega, by simpa [getTC] using hget, hrest⟩
      · simp only [flushToolEvents, hfin, if_neg, Bool.false_eq_true,
          not_false_eq_true, List.cons_append, List.nil_append] at hmem
        rcases List.mem_cons.mp hmem with heq | hmem2
        · cases heq
        rcases List.mem_cons.mp hmem2 with heq | hmem3
        · cases heq
          exact ⟨0, tc, by omega, rfl, by simpa using hfin, rfl, rfl, rfl⟩
        · obtain ⟨k, tc', hk, hget, hrest⟩ := ih (i + 1) hmem3
          exact ⟨k + 1, tc', by omega, by simpa [getTC] using hget, hrest⟩

theorem toolDeltas_nil_of_all (p : Nat) (l : List StreamPart)
    (h : l.all (fun e => !isToolDeltaAt p e) = true) : toolDeltas p l = [] := by
  induction l with
  | nil => rfl
  | cons a t ih =>
    simp only [List.all_cons, Bool.and_eq_true] at h
    have ht := ih h.2
    cases a with
    | toolInputDelta q id d =>
      have : (q == p) = false := by
        have := h.1
        simpa [isToolDeltaAt] using this
      have hqp : ¬ q = p := by simpa using this
      simp [toolDeltas, hqp] at ht ⊢
      exact ht
    | _ => simpa [toolDeltas] using ht

/-! ## Event-classification consequences -/

theorem flushEvFacts (a : StreamPart) (h : isToolFlushEv a = true) :
    a.isMetadata = false ∧ a.isTextStart = false ∧ a.isTextEnd = false ∧
    a.isTextDelta = false ∧ a.isReasoningStart = false ∧
    a.isReasoningEnd = false ∧ a.isReasoningDelta = false ∧
    a.isFinishEv = false := by
  cases a <;> simp_all [isToolFlushEv, StreamPart.isMetadata,
    StreamPart.isTextStart, StreamPart.isTextEnd, StreamPart.isTextDelta,
    StreamPart.isReasoningStart, StreamPart.isReasoningEnd,
    StreamPart.isReasoningDelta, StreamPart.isFinishEv]

theorem flushEvNoStartDelta (a : StreamPart) (h : isToolFlushEv a = true)
    (p : Nat) : isToolStartAt p a = false ∧ isToolDeltaAt p a = false := by
  cases a <;> simp_all [isToolFlushEv, isToolStartAt, isToolDeltaAt]

theorem bodyEvFacts (a : StreamPart) (h : a.isBodyEv = true) :
    a.isTextEnd = false ∧ a.isReasoningEnd = false ∧ a.isFinishEv = false := by
  cases a <;> simp_all [StreamPart.isBodyEv, StreamPart.isTextEnd,
    StreamPart.isReasoningEnd, StreamPart.isFinishEv]

theorem bodyEvNoToolEnd (a : StreamPart) (h : a.isBodyEv = true) (p : Nat) :
    isToolEndAt p a = false := by
  cases a <;> simp_all [StreamPart.isBodyEv, isToolEndAt]

theorem countP_ifList {α : Type} (p : α → Bool) (c : Bool) (x : α) :
    (if c then [x] else []).countP p = if c then (if p x then 1 else 0) else 0 := by
  cases c <;> simp [List.countP_cons]

theorem all_ifList {α : Type} (p : α → Bool) (c : Bool) (x : α) :
    (if c then [x] else []).all p = (if c then p x else true) := by
  cases c <;> simp

theorem pc_isFirstChunk (gen : Nat → String) (s : DecoderState)
    (f : ParseOutcome Chunk) :
    (processChunk gen s f).1.isFirstChunk = (s.isFirstChunk && !f.isSuccess) := by
  cases f with
  | failure e => simp [processChunk, ParseOutcome.isSuccess]
  | success v =>
    rw [processChunk_success]
    cases hd : (v.choices.head?).bind (·.delta) with
    | none => simp [ParseOutcome.isSuccess, mus_isFirstChunk]
    | some d => simp [ParseOutcome.isSuccess, pDelta_isFirstChunk, mus_isFirstChunk]

theorem runFrames_isFirstChunk (gen : Nat → String)
    (frames : List (ParseOutcome Chunk)) :
    ∀ s : DecoderState, (runFrames gen s frames).1.isFirstChunk =
      (s.isFirstChunk && !(frames.any ParseOutcome.isSuccess)) := by
  induction frames with
  | nil => intro s; simp [runFrames]
  | cons f fs ih =>
    intro s
    simp only [runFrames]
    rw [ih, pc_isFirstChunk]
    cases hs : s.isFirstChunk <;> cases hf : f.isSuccess <;>
      simp [List.any_cons, hf]

/-- Claim C1 (amended): for every frame sequence, the decoded event
sequence emits `response-metadata` exactly once when some frame parses
successfully (and never otherwise), always before any content event; each
span kind is balanced with no delta after its end; and `finish` is unique
and last. -/
theorem c1_stream_event_discipline (gen : Nat → String)
    (frames : List (ParseOutcome Chunk)) :
    ((decodeStream gen frames).countP StreamPart.isMetadata
        = (if frames.any ParseOutcome.isSuccess then 1 else 0))
    ∧ MetaBeforeContent (decodeStream gen frames)
    ∧ (decodeStream gen frames).countP StreamPart.isTextStart ≤ 1
    ∧ (decodeStream gen frames).countP StreamPart.isTextEnd
        = (decodeStream gen frames).countP StreamPart.isTextStart
    ∧ (((decodeStream gen frames).dropWhile (fun e => !e.isTextEnd)).all
        (fun e => !e.isTextDelta) = true)
    ∧ (decodeStream gen frames).countP StreamPart.isReasoningStart ≤ 1
    ∧ (decodeStream gen frames).countP StreamPart.isReasoningEnd
        = (decodeStream gen frames).countP StreamPart.isReasoningStart
    ∧ (((decodeStream gen frames).dropWhile (fun e => !e.isReasoningEnd)).all
        (fun e => !e.isReasoningDelta) = true)
    ∧ (∀ p, (decodeStream gen frames).countP (isToolStartAt p) ≤ 1
        ∧ (decodeStream gen frames).countP (isToolEndAt p)
            = (decodeStream gen frames).countP (isToolStartAt p)
        ∧ (((decodeStream gen frames).dropWhile (fun e => !isToolEndAt p e)).all
            (fun e => !isToolDeltaAt p e) = true))
    ∧ (∃ pre fr fu, decodeStream gen frames = pre ++ [.finish fr fu]
        ∧ pre.countP StreamPart.isFinishEv = 0) := by
  have hInv := inv_decode gen frames
  set s := (runFrames gen initState frames).1 with hsdef
  set body := (runFrames gen initState frames).2 with hbdef
  have hev : decodeStream gen frames
      = .streamStart :: (body ++ flushState s) := rfl
  set A := (if s.isActiveReasoning then [StreamPart.reasoningEnd "reasoning-0"] else [])
    with hAdef
  set B := (if s.isActiveText then [StreamPart.textEnd "txt-0"] else []) with hBdef
  set TOOL := flushToolEvents 0 s.toolCalls with hTdef
  set FIN := StreamPart.finish s.finishReason (finishUsageOf s.usage) with hFdef
  have hflush : flushState s = A ++ B ++ TOOL ++ [FIN] := rfl
  have hTOOLall : TOOL.all isToolFlushEv = true := flushToolEvents_all s.toolCalls 0
  have hbodyAll : body.all StreamPart.isBodyEv = true := hInv.bodyOnly
  have hfirst : s.isFirstChunk = !(frames.any ParseOutcome.isSuccess) := by
    rw [hsdef, runFrames_isFirstChunk]
    simp [initState]
  -- component count facts
  have hT_meta : TOOL.countP StreamPart.isMetadata = 0 :=
    countPEqZeroOfAllNot _ _ _ hTOOLall (fun a ha => (flushEvFacts a ha).1)
  have hT_ts : TOOL.countP StreamPart.isTextStart = 0 :=
    countPEqZeroOfAllNot _ _ _ hTOOLall (fun a ha => (flushEvFacts a ha).2.1)
  have hT_te : TOOL.countP StreamPart.isTextEnd = 0 :=
    countPEqZeroOfAllNot _ _ _ hTOOLall (fun a ha => (flushEvFacts a ha).2.2.1)
  have hT_rs : TOOL.countP StreamPart.isReasoningStart = 0 :=
    countPEqZeroOfAllNot _ _ _ hTOOLall (fun a ha => (flushEvFacts a ha).2.2.2.2.1)
  have hT_re : TOOL.countP StreamPart.isReasoningEnd = 0 :=
    countPEqZeroOfAllNot _ _ _ hTOOLall (fun a ha => (flushEvFacts a ha).2.2.2.2.2.1)
  have hT_fin : TOOL.countP StreamPart.isFinishEv = 0 :=
    countPEqZeroOfAllNot _ _ _ hTOOLall (fun a ha => (flushEvFacts a ha).2.2.2.2.2.2.2)
  have hT_startAt : ∀ p, TOOL.countP (isToolStartAt p) = 0 := fun p =>
    countPEqZeroOfAllNot _ _ _ hTOOLall (fun a ha => (flushEvNoStartDelta a ha p).1)
  have hnf : ∀ q tc, getTC s.toolCalls q = some tc → tc.hasFinished = false :=
    fun q tc h => (hInv.toolArgs q tc h).1
  have hT_endAt : ∀ p, TOOL.countP (isToolEndAt p)
      = (if (getTC s.toolCalls p).isSome then 1 else 0) := fun p => by
    simpa using flushToolEvents_endCount s.toolCalls hnf 0 p
  have hB_te : body.countP StreamPart.isTextEnd = 0 :=
    countPEqZeroOfAllNot _ _ _ hbodyAll (fun a ha => (bodyEvFacts a ha).1)
  have hB_re : body.countP StreamPart.isReasoningEnd = 0 :=
    countPEqZeroOfAllNot _ _ _ hbodyAll (fun a ha => (bodyEvFacts a ha).2.1)
  have hB_fin : body.countP StreamPart.isFinishEv = 0 :=
    countPEqZeroOfAllNot _ _ _ hbodyAll (fun a ha => (bodyEvFacts a ha).2.2)
  have hB_endAt : ∀ p, body.countP (isToolEndAt p) = 0 := fun p =>
    countPEqZeroOfAllNot _ _ _ hbodyAll (fun a ha => bodyEvNoToolEnd a ha p)
  refine ⟨?_, ?_, ?_, ?_, ?_, ?_, ?_, ?_, ?_, ?_⟩
  · -- metadata count
    have hA0 : A.countP StreamPart.isMetadata = 0 := by
      rw [hAdef]; cases s.isActiveReasoning <;> rfl
    have hB0 : B.countP StreamPart.isMetadata = 0 := by
      rw [hBdef]; cases s.isActiveText <;> rfl
    rw [hev, hflush]
    simp only [List.countP_cons, List.countP_append, hA0, hB0, hT_meta,
      List.countP_nil]
    rw [hInv.metaCount, hfirst]
    cases hAny : frames.any ParseOutcome.isSuccess <;>
      simp [hFdef, StreamPart.isMetadata]
  · -- metadata before content
    by_cases hfc : s.isFirstChunk = true
    · obtain ⟨hclean, hAR, hAT, hTCnil⟩ := hInv.firstClean hfc
      have hm0 : body.countP StreamPart.isMetadata = 0 := by
        simp [hInv.metaCount, hfc]
      have hAe : A = [] := by rw [hAdef, hAR]; rfl
      have hBe : B = [] := by rw [hBdef, hAT]; rfl
      have hTe : TOOL = [] := by rw [hTdef, hTCnil]; rfl
      unfold MetaBeforeContent
      rw [hev, hflush, hAe, hBe, hTe]
      have hbody1 : body.all (fun e => !e.isMetadata) = true :=
        allNotMetaOfCountZero body hm0
      have hall : (StreamPart.streamStart :: (body ++ ([] ++ [] ++ [] ++ [FIN]))).all
          (fun e => !e.isMetadata) = true := by
        rw [List.all_cons, List.all_append, hbody1, hFdef]
        rfl
      rw [takeWhileAll _ _ hall]
      rw [List.all_cons, List.all_append, hclean, hFdef]
      rfl
    · have hfcF : s.isFirstChunk = false := by simpa using hfc
      have hm1 : body.countP StreamPart.isMetadata = 1 := by
        simp [hInv.metaCount, hfcF]
      unfold MetaBeforeContent
      rw [hev]
      have hstep : List.takeWhile (fun e => !StreamPart.isMetadata e)
          (StreamPart.streamStart :: (body ++ flushState s))
          = StreamPart.streamStart ::
              List.takeWhile (fun e => !StreamPart.isMetadata e)
                (body ++ flushState s) := rfl
      rw [hstep]
      rw [takeWhileAppendStop (fun e => !e.isMetadata) body (flushState s)
        (notAllNotOfCountPOne StreamPart.isMetadata body hm1)]
      rw [List.all_cons]
      have hmf := hInv.metaFirst
      unfold MetaBeforeContent at hmf
      rw [hmf]
      rfl
  · -- textStart count at most one
    have hA0 : A.countP StreamPart.isTextStart = 0 := by
      rw [hAdef]; cases s.isActiveReasoning <;> rfl
    have hB0 : B.countP StreamPart.isTextStart = 0 := by
      rw [hBdef]; cases s.isActiveText <;> rfl
    rw [hev, hflush]
    simp only [List.countP_cons, List.countP_append, List.countP_nil,
      hA0, hB0, hT_ts, hInv.textCount]
    cases hx : s.isActiveText <;> simp [hx, hFdef, StreamPart.isTextStart]
  · -- textEnd count equals textStart count
    have hA0e : A.countP StreamPart.isTextEnd = 0 := by
      rw [hAdef]; cases s.isActiveReasoning <;> rfl
    have hA0s : A.countP StreamPart.isTextStart = 0 := by
      rw [hAdef]; cases s.isActiveReasoning <;> rfl
    have hB0s : B.countP StreamPart.isTextStart = 0 := by
      rw [hBdef]; cases s.isActiveText <;> rfl
    have hB1e : B.countP StreamPart.isTextEnd
        = (if s.isActiveText then 1 else 0) := by
      rw [hBdef]; cases s.isActiveText <;> rfl
    rw [hev, hflush]
    simp only [List.countP_cons, List.countP_append, List.countP_nil,
      hA0e, hA0s, hB0s, hB1e, hB_te, hT_ts, hT_te, hInv.textCount]
    cases hx : s.isActiveText <;>
      simp [hx, hFdef, StreamPart.isTextStart, StreamPart.isTextEnd]
  · -- no text delta after text end
    have hpre : (StreamPart.streamStart :: (body ++ A)).all
        (fun e => !e.isTextEnd) = true := by
      have h1 : body.all (fun e => !e.isTextEnd) = true :=
        allImp _ _ _ hbodyAll (fun a ha => by rw [(bodyEvFacts a ha).1]; rfl)
      have h2 : A.all (fun e => !e.isTextEnd) = true := by
        rw [hAdef]; cases s.isActiveReasoning <;> rfl
      rw [List.all_cons, List.all_append, h1, h2]
      rfl
    have hsplit : decodeStream gen frames
        = (StreamPart.streamStart :: (body ++ A)) ++ (B ++ TOOL ++ [FIN]) := by
      rw [hev, hflush]
      simp [List.append_assoc]
    rw [hsplit, dropWhileAppendAll _ _ _ hpre]
    apply allDropWhile
    have h3 : TOOL.all (fun e => !e.isTextDelta) = true :=
      allImp _ _ _ hTOOLall (fun a ha => by rw [(flushEvFacts a ha).2.2.2.1]; rfl)
    have h4 : B.all (fun e => !e.isTextDelta) = true := by
      rw [hBdef]; cases s.isActiveText <;> rfl
    rw [List.all_append, List.all_append, h4, h3, hFdef]
    rfl
  · -- reasoningStart count at most one
    have hA0 : A.countP StreamPart.isReasoningStart = 0 := by
      rw [hAdef]; cases s.isActiveReasoning <;> rfl
    have hB0 : B.countP StreamPart.isReasoningStart = 0 := by
      rw [hBdef]; cases s.isActiveText <;> rfl
    rw [hev, hflush]
    simp only [List.countP_cons, List.countP_append, List.countP_nil,
      hA0, hB0, hT_rs, hInv.reasonCount]
    cases hx : s.isActiveReasoning <;>
      simp [hx, hFdef, StreamPart.isReasoningStart]
  · -- reasoningEnd count equals reasoningStart count
    have hA1e : A.countP StreamPart.isReasoningEnd
        = (if s.isActiveReasoning then 1 else 0) := by
      rw [hAdef]; cases s.isActiveReasoning <;> rfl
    have hA0s : A.countP StreamPart.isReasoningStart = 0 := by
      rw [hAdef]; cases s.isActiveReasoning <;> rfl
    have hB0s : B.countP StreamPart.isReasoningStart = 0 := by
      rw [hBdef]; cases s.isActiveText <;> rfl
    have hB0e : B.countP StreamPart.isReasoningEnd = 0 := by
      rw [hBdef]; cases s.isActiveText <;> rfl
    rw [hev, hflush]
    simp only [List.countP_cons, List.countP_append, List.countP_nil,
      hA1e, hA0s, hB0s, hB0e, hB_re, hT_rs, hT_re, hInv.reasonCount]
    cases hx : s.isActiveReasoning <;>
      simp [hx, hFdef, StreamPart.isReasoningStart, StreamPart.isReasoningEnd]
  · -- no reasoning delta after reasoning end
    have hpre : (StreamPart.streamStart :: body).all
        (fun e => !e.isReasoningEnd) = true := by
      have h1 : body.all (fun e => !e.isReasoningEnd) = true :=
        allImp _ _ _ hbodyAll (fun a ha => by rw [(bodyEvFacts a ha).2.1]; rfl)
      rw [List.all_cons, h1]
      rfl
    have hsplit : decodeStream gen frames
        = (StreamPart.streamStart :: body) ++ (A ++ B ++ TOOL ++ [FIN]) := by
      rw [hev, hflush]
      simp [List.append_assoc]
    rw [hsplit, dropWhileAppendAll _ _ _ hpre]
    apply allDropWhile
    have h3 : TOOL.all (fun e => !e.isReasoningDelta) = true :=
      allImp _ _ _ hTOOLall
        (fun a ha => by rw [(flushEvFacts a ha).2.2.2.2.2.2.1]; rfl)
    have h4 : A.all (fun e => !e.isReasoningDelta) = true := by
      rw [hAdef]; cases s.isActiveReasoning <;> rfl
    have h5 : B.all (fun e => !e.isReasoningDelta) = true := by
      rw [hBdef]; cases s.isActiveText <;> rfl
    rw [List.all_append, List.all_append, List.all_append, h4, h5, h3, hFdef]
    rfl
  · -- tool spans
    intro p
    have hA0s : A.countP (isToolStartAt p) = 0 := by
      rw [hAdef]; cases s.isActiveReasoning <;> rfl
    have hB0s : B.countP (isToolStartAt p) = 0 := by
      rw [hBdef]; cases s.isActiveText <;> rfl
    have hA0e : A.countP (isToolEndAt p) = 0 := by
      rw [hAdef]; cases s.isActiveReasoning <;> rfl
    have hB0e : B.countP (isToolEndAt p) = 0 := by
      rw [hBdef]; cases s.isActiveText <;> rfl
    have hstart : (decodeStream gen frames).countP (isToolStartAt p)
        = (if (getTC s.toolCalls p).isSome then 1 else 0) := by
      rw [hev, hflush]
      simp only [List.countP_cons, List.countP_append, List.countP_nil,
        hA0s, hB0s, hT_startAt p, hInv.toolStartCount p]
      rw [hFdef]
      simp [isToolStartAt]
    refine ⟨?_, ?_, ?_⟩
    · rw [hstart]
      by_cases h : (getTC s.toolCalls p).isSome <;> simp [h]
    · rw [hstart, hev, hflush]
      simp only [List.countP_cons, List.countP_append, List.countP_nil,
        hA0e, hB0e, hT_endAt p, hB_endAt p]
      rw [hFdef]
      simp [isToolEndAt]
    · have hpre : (StreamPart.streamStart :: (body ++ A ++ B)).all
          (fun e => !isToolEndAt p e) = true := by
        have h1 : body.all (fun e => !isToolEndAt p e) = true :=
          allImp _ _ _ hbodyAll (fun a ha => by rw [bodyEvNoToolEnd a ha p]; rfl)
        have h2 : A.all (fun e => !isToolEndAt p e) = true := by
          rw [hAdef]; cases s.isActiveReasoning <;> rfl
        have h3 : B.all (fun e => !isToolEndAt p e) = true := by
          rw [hBdef]; cases s.isActiveText <;> rfl
        rw [List.all_cons, List.all_append, List.all_append, h1, h2, h3]
        rfl
      have hsplit : decodeStream gen frames
          = (StreamPart.streamStart :: (body ++ A ++ B)) ++ (TOOL ++ [FIN]) := by
        rw [hev, hflush]
        simp [List.append_assoc]
      rw [hsplit, dropWhileAppendAll _ _ _ hpre]
      apply allDropWhile
      have h3 : TOOL.all (fun e => !isToolDeltaAt p e) = true :=
        allImp _ _ _ hTOOLall
          (fun a ha => by rw [(flushEvNoStartDelta a ha p).2]; rfl)
      rw [List.all_append, h3, hFdef]
      rfl
  · -- finish is unique and last
    refine ⟨StreamPart.streamStart :: (body ++ A ++ B ++ TOOL),
      s.finishReason, finishUsageOf s.usage, ?_, ?_⟩
    · rw [hev, hflush, hFdef]
      simp [List.append_assoc]
    · have hA0 : A.countP StreamPart.isFinishEv = 0 := by
        rw [hAdef]; cases s.isActiveReasoning <;> rfl
      have hB0 : B.countP StreamPart.isFinishEv = 0 := by
        rw [hBdef]; cases s.isActiveText <;> rfl
      simp only [List.countP_cons, List.countP_append, List.countP_nil,
        hB_fin, hA0, hB0, hT_fin]
      rfl

/-- A concrete identifier supply standing in for `generateId()`. -/
def genDefault : Nat → String := fun n => "id-" ++ Nat.repr n

/-- Claim C1, counterexample to the claim as stated: on a stream whose only
frame fails to parse, no `response-metadata` event is emitted at all, so
"`response-metadata` occurs exactly once" fails. -/
theorem c1_counterexample :
    ¬ ((decodeStream genDefault [.failure "boom"]).countP
        StreamPart.isMetadata = 1) := by
  decide

/-! ## Claim C2: the three-frame concrete scenario -/

def scenarioReasoningFrame (t : String) : ParseOutcome Chunk :=
  .success { id := some "chatcmpl-1", created := some 1711000000,
             model := some "deepseek-r1",
             choices := [ { delta := some { content := none,
                                            reasoning_content := some t,
                                            reasoning := none, tool_calls := none },
                            finish_reason := none } ],
             usage := none }

def scenarioFinalFrame : ParseOutcome Chunk :=
  .success { id := some "chatcmpl-1", created := some 1711000000,
             model := some "deepseek-r1",
             choices := [ { delta := some { content := some "42",
                                            reasoning_content := none,
                                            reasoning := none, tool_calls := none },
                            finish_reason := some "stop" } ],
             usage := some { prompt_tokens := some 3, completion_tokens := some 7,
                             total_tokens := some 10, prompt_tokens_details := none,
                             completion_tokens_details := none } }

def scenarioFrames : List (ParseOutcome Chunk) :=
  [scenarioReasoningFrame "Let", scenarioReasoningFrame " me think",
   scenarioFinalFrame]

/-- The event sequence claimed by the specification scenario (no
`stream-start`, and `reasoning-end` before `text-start`). -/
def claimedScenarioEvents : List StreamPart :=
  [.responseMetadata (some "chatcmpl-1") (some "deepseek-r1") (some 1711000000),
   .reasoningStart "reasoning-0", .reasoningDelta "reasoning-0" "Let",
   .reasoningDelta "reasoning-0" " me think", .reasoningEnd "reasoning-0",
   .textStart "txt-0", .textDelta "txt-0" "42", .textEnd "txt-0",
   .finish .stop ⟨some 3, none, some 7, none⟩]

/-- Claim C2, counterexample to the claim as stated: the decoder's output
on the scenario is not the claimed sequence (it starts with `stream-start`,
and `reasoning-end` is only emitted at flush, after the text events). -/
theorem c2_counterexample :
    decodeStream genDefault scenarioFrames ≠ claimedScenarioEvents := by
  decide

/-- Claim C2 (amended): the scenario decodes to `stream-start`,
`response-metadata`, `reasoning-start`, the two reasoning deltas,
`text-start`, `text-delta("42")`, then at end-of-stream `reasoning-end`,
`text-end`, and `finish(stop, usage)`. -/
theorem c2_scenario_decode :
    decodeStream genDefault scenarioFrames =
      [.streamStart,
       .responseMetadata (some "chatcmpl-1") (some "deepseek-r1")
         (some 1711000000),
       .reasoningStart "reasoning-0", .reasoningDelta "reasoning-0" "Let",
       .reasoningDelta "reasoning-0" " me think",
       .textStart "txt-0", .textDelta "txt-0" "42",
       .reasoningEnd "reasoning-0", .textEnd "txt-0",
       .finish .stop ⟨some 3, none, some 7, none⟩] := by
  rfl

/-! ## Claim C5: parse-failure handling -/

theorem runFrames_append (gen : Nat → String) (s : DecoderState)
    (l1 l2 : List (ParseOutcome Chunk)) :
    runFrames gen s (l1 ++ l2)
      = ((runFrames gen (runFrames gen s l1).1 l2).1,
         (runFrames gen s l1).2 ++ (runFrames gen (runFrames gen s l1).1 l2).2) := by
  induction l1 generalizing s with
  | nil => simp [runFrames]
  | cons f fs ih => simp [runFrames, ih, List.append_assoc]

/-- Claim C5: a frame whose parse failed contributes exactly one `error`
event, sets the finish reason to `error`, leaves every event emitted before
it unchanged, and decoding continues with the remaining frames (the decoder
is a total function, so it never throws). -/
theorem c5_parse_failure_degrades (gen : Nat → String)
    (pre post : List (ParseOutcome Chunk)) (e : String) :
    decodeStream gen (pre ++ .failure e :: post)
      = .streamStart ::
          ((runFrames gen initState pre).2
            ++ .errorPart e ::
              ((runFrames gen
                  { (runFrames gen initState pre).1 with finishReason := .error }
                  post).2
                ++ flushState (runFrames gen
                    { (runFrames gen initState pre).1 with finishReason := .error }
                    post).1)) := by
  show (StreamPart.streamStart ::
      ((runFrames gen initState (pre ++ .failure e :: post)).2
        ++ flushState (runFrames gen initState (pre ++ .failure e :: post)).1)) = _
  rw [runFrames_append]
  simp [runFrames, processChunk, List.append_assoc]

/-! ## Claim C4: per-position tool-argument accumulation -/

/-- Claim C4: for any decoded stream, the concatenation (in emission order)
of the `tool-input-delta` payloads at a tool-call position equals the
argument text carried by the `tool-call` event flushed for that position. -/
theorem c4_tool_arguments (gen : Nat → String)
    (frames : List (ParseOutcome Chunk)) (p : Nat) (id nm inp : String)
    (hmem : StreamPart.toolCall p id nm inp ∈ decodeStream gen frames) :
    concatAll (toolDeltas p (decodeStream gen frames)) = inp := by
  have hInv := inv_decode gen frames
  set s := (runFrames gen initState frames).1 with hsdef
  set body := (runFrames gen initState frames).2 with hbdef
  have hev : decodeStream gen frames
      = .streamStart :: (body ++ flushState s) := rfl
  have hbodyAll : body.all StreamPart.isBodyEv = true := hInv.bodyOnly
  have hTOOLall := flushToolEvents_all s.toolCalls 0
  rw [hev] at hmem
  have hmem2 : StreamPart.toolCall p id nm inp ∈ flushToolEvents 0 s.toolCalls := by
    rcases List.mem_cons.mp hmem with h | h
    · cases h
    rcases List.mem_append.mp h with h | h
    · have hb := (List.all_eq_true.mp hbodyAll) _ h
      simp [StreamPart.isBodyEv] at hb
    · by_cases hAR : s.isActiveReasoning <;> by_cases hAT : s.isActiveText <;>
        (simp [flushState, hAR, hAT] at h; exact h)
  obtain ⟨k, tc, hpk, hget, hfin2, hid, hnm, harg⟩ :=
    flushToolEvents_toolCall_mem s.toolCalls 0 p id nm inp hmem2
  have hgetp : getTC s.toolCalls p = some tc := by
    rw [hpk]; simpa using hget
  obtain ⟨_, hargbody⟩ := hInv.toolArgs p tc hgetp
  have h1 : (flushToolEvents 0 s.toolCalls).all
      (fun e => !isToolDeltaAt p e) = true :=
    allImp _ _ _ hTOOLall
      (fun a ha => by rw [(flushEvNoStartDelta a ha p).2]; rfl)
  have hflushND : toolDeltas p (flushState s) = [] := by
    apply toolDeltas_nil_of_all
    unfold flushState
    rw [List.all_append, List.all_append, List.all_append, h1]
    by_cases hAR : s.isActiveReasoning <;> by_cases hAT : s.isActiveText <;>
      simp [hAR, hAT, isToolDeltaAt]
  have hcons : toolDeltas p (StreamPart.streamStart :: (body ++ flushState s))
      = toolDeltas p (body ++ flushState s) := rfl
  rw [hev, hcons, toolDeltas_append, hflushND, List.append_nil, ← hargbody]
  exact harg

def c4ToolFrame (argFragment : String) (toolId : Option String)
    (toolName : Option String) : ParseOutcome Chunk :=
  .success { id := some "c", created := none, model := none,
             choices := [ { delta := some { content := none,
                                            reasoning_content := none,
                                            reasoning := none,
                                            tool_calls := some
                                              [⟨1, toolId, ⟨toolName, some argFragment⟩⟩] },
                            finish_reason := none } ],
             usage := none }

def c4Frames : List (ParseOutcome Chunk) :=
  [c4ToolFrame "a" none (some "f"), c4ToolFrame "b" none none]

theorem c4_witness :
    (StreamPart.toolCall 1 "id-0" "f" "ab" ∈ decodeStream genDefault c4Frames)
    ∧ concatAll (toolDeltas 1 (decodeStream genDefault c4Frames)) = "ab" :=
  ⟨by decide, c4_tool_arguments genDefault c4Frames 1 "id-0" "f" "ab" (by decide)⟩

/-! ## Claim C3: usage accumulation -/

/-- The usage objects carried by successfully parsed frames, in order. -/
def reportedUsages (frames : List (ParseOutcome Chunk)) : List TokenUsage :=
  frames.filterMap fun f =>
    match f with
    | .success v => v.usage
    | .failure _ => none

def finishEvents (l : List StreamPart) : List (FinishReason × FinishUsage) :=
  l.filterMap fun e =>
    match e with
    | .finish r u => some (r, u)
    | _ => none

theorem pReasoning_usage (s : DecoderState) (rc : Option String) :
    (processReasoning s rc).1.usage = s.usage := by
  unfold processReasoning
  cases rc with
  | none => rfl
  | some r =>
    by_cases hr : r = "" <;> by_cases hA : s.isActiveReasoning <;> simp [hr, hA]

theorem pText_usage (s : DecoderState) (c : Option String) :
    (processText s c).1.usage = s.usage := by
  unfold processText
  cases c with
  | none => rfl
  | some t =>
    by_cases ht : t = "" <;> by_cases hA : s.isActiveText <;> simp [ht, hA]

theorem pTCD_usage (gen : Nat → String) (s : DecoderState) (tcd : ToolCallDelta) :
    (processToolCallDelta gen s tcd).1.usage = s.usage := by
  cases hg : getTC s.toolCalls tcd.index with
  | none => simp [processToolCallDelta, hg]
  | some tc =>
    cases hfin : tc.hasFinished with
    | true =>
      cases hargs : tcd.function.arguments <;>
        simp [processToolCallDelta, hg, hfin, hargs]
    | false =>
      cases hargs : tcd.function.arguments with
      | none => simp [processToolCallDelta, hg, hfin, hargs]
      | some a =>
        by_cases ha : a = "" <;> simp [processToolCallDelta, hg, hfin, hargs, ha]

theorem pTCDs_usage (gen : Nat → String) (l : List ToolCallDelta) :
    ∀ s : DecoderState, (processToolCallDeltas gen s l).1.usage = s.usage := by
  induction l with
  | nil => intro s; rfl
  | cons tcd rest ih =>
    intro s
    simp only [processToolCallDeltas]
    rw [ih, pTCD_usage]

theorem pDelta_usage (gen : Nat → String) (s : DecoderState) (d : ChunkDelta) :
    (processDelta gen s d).1.usage = s.usage := by
  simp only [processDelta]
  cases hm : d.tool_calls <;>
    simp [hm, pTCDs_usage, pText_usage, pReasoning_usage]

theorem pc_usage (gen : Nat → String) (s : DecoderState) (f : ParseOutcome Chunk) :
    (processChunk gen s f).1.usage
      = applyUsageOpt s.usage (match f with
          | .success v => v.usage
          | .failure _ => none) := by
  cases f with
  | failure e => rfl
  | success v =>
    rw [processChunk_success]
    cases hd : (v.choices.head?).bind (·.delta) with
    | none =>
      show (metaUsageState s v).usage = _
      unfold metaUsageState
      by_cases hf : s.isFirstChunk <;> simp [hf]
    | some d =>
      show (processDelta gen (metaUsageState s v) d).1.usage = _
      rw [pDelta_usage]
      unfold metaUsageState
      by_cases hf : s.isFirstChunk <;> simp [hf]

theorem runFrames_usage (gen : Nat → String) (frames : List (ParseOutcome Chunk)) :
    ∀ s : DecoderState, (runFrames gen s frames).1.usage
      = (reportedUsages frames).foldl applyUsage s.usage := by
  induction frames with
  | nil => intro s; rfl
  | cons f fs ih =>
    intro s
    simp only [runFrames]
    rw [ih, pc_usage]
    cases f with
    | success v =>
      cases hu : v.usage with
      | none => simp [reportedUsages, List.filterMap_cons, hu, applyUsageOpt]
      | some u => simp [reportedUsages, List.filterMap_cons, hu, applyUsageOpt]
    | failure e => simp [reportedUsages, List.filterMap_cons, applyUsageOpt]

theorem foldlUsage_prompt (l : List TokenUsage) (u0 : UsageAcc) :
    (l.foldl applyUsage u0).promptTokens
      = (match l.getLast? with
         | some o => o.prompt_tokens
         | none => u0.promptTokens) := by
  induction l using List.reverseRecOn with
  | nil => rfl
  | append_singleton t o ih =>
    rw [List.foldl_append, List.getLast?_concat]
    rfl

theorem foldlUsage_completion (l : List TokenUsage) (u0 : UsageAcc) :
    (l.foldl applyUsage u0).completionTokens
      = (match l.getLast? with
         | some o => o.completion_tokens
         | none => u0.completionTokens) := by
  induction l using List.reverseRecOn with
  | nil => rfl
  | append_singleton t o ih =>
    rw [List.foldl_append, List.getLast?_concat]
    rfl

theorem foldlUsage_reasoning (l : List TokenUsage) (u0 : UsageAcc) :
    (l.foldl applyUsage u0).reasoningTokens
      = (match (l.filterMap
            (fun o => o.completion_tokens_details.bind (·.reasoning_tokens))).getLast? with
         | some r => some r
         | none => u0.reasoningTokens) := by
  induction l using List.reverseRecOn with
  | nil => rfl
  | append_singleton t o ih =>
    rw [List.foldl_append]
    have hL : (List.foldl applyUsage (List.foldl applyUsage u0 t) [o]).reasoningTokens
        = (match o.completion_tokens_details.bind (·.reasoning_tokens) with
           | some r => some r
           | none => (List.foldl applyUsage u0 t).reasoningTokens) := rfl
    rw [hL, ih, List.filterMap_append]
    cases hfo : o.completion_tokens_details.bind (·.reasoning_tokens) with
    | none => simp [List.filterMap_cons, hfo]
    | some r0 => simp [List.filterMap_cons, hfo, List.getLast?_concat]

theorem foldlUsage_cached (l : List TokenUsage) (u0 : UsageAcc) :
    (l.foldl applyUsage u0).cachedTokens
      = (match (l.filterMap
            (fun o => o.prompt_tokens_details.bind (·.cached_tokens))).getLast? with
         | some c => some c
         | none => u0.cachedTokens) := by
  induction l using List.reverseRecOn with
  | nil => rfl
  | append_singleton t o ih =>
    rw [List.foldl_append]
    have hL : (List.foldl applyUsage (List.foldl applyUsage u0 t) [o]).cachedTokens
        = (match o.prompt_tokens_details.bind (·.cached_tokens) with
           | some c => some c
           | none => (List.foldl applyUsage u0 t).cachedTokens) := rfl
    rw [hL, ih, List.filterMap_append]
    cases hfo : o.prompt_tokens_details.bind (·.cached_tokens) with
    | none => simp [List.filterMap_cons, hfo]
    | some c0 => simp [List.filterMap_cons, hfo, List.getLast?_concat]

theorem finishEvents_nil_of_all (l : List StreamPart)
    (h : l.all (fun e => !e.isFinishEv) = true) : finishEvents l = [] := by
  induction l with
  | nil => rfl
  | cons a t ih =>
    simp only [List.all_cons, Bool.and_eq_true] at h
    have ht := ih h.2
    cases a <;> simp_all [finishEvents, StreamPart.isFinishEv, List.filterMap_cons]

theorem finishEvents_append (l1 l2 : List StreamPart) :
    finishEvents (l1 ++ l2) = finishEvents l1 ++ finishEvents l2 := by
  simp [finishEvents, List.filterMap_append]

/-- Decoding produces exactly one `finish` event; it carries the final
accumulated finish reason and usage. -/
theorem finishEvents_decode (gen : Nat → String)
    (frames : List (ParseOutcome Chunk)) :
    finishEvents (decodeStream gen frames)
      = [((runFrames gen initState frames).1.finishReason,
          finishUsageOf (runFrames gen initState frames).1.usage)] := by
  have hInv := inv_decode gen frames
  set s := (runFrames gen initState frames).1 with hsdef
  set body := (runFrames gen initState frames).2 with hbdef
  have hev : decodeStream gen frames
      = .streamStart :: (body ++ flushState s) := rfl
  have hbody : finishEvents body = [] :=
    finishEvents_nil_of_all _ (allImp _ _ _ hInv.bodyOnly
      (fun a ha => by rw [(bodyEvFacts a ha).2.2]; rfl))
  have hTOOL : finishEvents (flushToolEvents 0 s.toolCalls) = [] :=
    finishEvents_nil_of_all _ (allImp _ _ _ (flushToolEvents_all _ 0)
      (fun a ha => by rw [(flushEvFacts a ha).2.2.2.2.2.2.2]; rfl))
  have hcons : finishEvents (StreamPart.streamStart :: (body ++ flushState s))
      = finishEvents (body ++ flushState s) := rfl
  rw [hev, hcons, finishEvents_append, hbody]
  unfold flushState
  rw [finishEvents_append, finishEvents_append, finishEvents_append, hTOOL]
  by_cases hAR : s.isActiveReasoning <;> by_cases hAT : s.isActiveText <;>
    simp [hAR, hAT, finishEvents]

/-- Claim C3 (amended): the usage on the single `finish` event carries
last-write-wins accumulation per field for the reasoning and cached token
counts, but the prompt and completion totals come from the last frame
bearing any usage object at all — a later usage object that omits a field
clears the value reported earlier. -/
theorem c3_usage_accumulation (gen : Nat → String)
    (frames : List (ParseOutcome Chunk)) :
    ∃ fr, finishEvents (decodeStream gen frames)
      = [(fr,
          { inputTotal := ((reportedUsages frames).getLast?).bind (·.prompt_tokens),
            cacheRead := ((reportedUsages frames).filterMap
                (fun o => o.prompt_tokens_details.bind (·.cached_tokens))).getLast?,
            outputTotal :=
              ((reportedUsages frames).getLast?).bind (·.completion_tokens),
            outputReasoning := ((reportedUsages frames).filterMap
                (fun o => o.completion_tokens_details.bind (·.reasoning_tokens))).getLast? })] := by
  refine ⟨(runFrames gen initState frames).1.finishReason, ?_⟩
  rw [finishEvents_decode]
  have hu : (runFrames gen initState frames).1.usage
      = (reportedUsages frames).foldl applyUsage initState.usage :=
    runFrames_usage gen frames initState
  have h1 : ((reportedUsages frames).foldl applyUsage initState.usage).promptTokens
      = ((reportedUsages frames).getLast?).bind (·.prompt_tokens) := by
    rw [foldlUsage_prompt]
    cases hgl : (reportedUsages frames).getLast? <;> simp [hgl, initState]
  have h2 : ((reportedUsages frames).foldl applyUsage initState.usage).completionTokens
      = ((reportedUsages frames).getLast?).bind (·.completion_tokens) := by
    rw [foldlUsage_completion]
    cases hgl : (reportedUsages frames).getLast? <;> simp [hgl, initState]
  have h3 : ((reportedUsages frames).foldl applyUsage initState.usage).reasoningTokens
      = ((reportedUsages frames).filterMap
          (fun o => o.completion_tokens_details.bind (·.reasoning_tokens))).getLast? := by
    rw [foldlUsage_reasoning]
    cases hgl : ((reportedUsages frames).filterMap
        (fun o => o.completion_tokens_details.bind (·.reasoning_tokens))).getLast? <;>
      simp [hgl, initState]
  have h4 : ((reportedUsages frames).foldl applyUsage initState.usage).cachedTokens
      = ((reportedUsages frames).filterMap
          (fun o => o.prompt_tokens_details.bind (·.cached_tokens))).getLast? := by
    rw [foldlUsage_cached]
    cases hgl : ((reportedUsages frames).filterMap
        (fun o => o.prompt_tokens_details.bind (·.cached_tokens))).getLast? <;>
      simp [hgl, initState]
  unfold finishUsageOf
  rw [hu, h1, h2, h3, h4]

def c3FrameWithUsage (u : TokenUsage) : ParseOutcome Chunk :=
  .success { id := none, created := none, model := none, choices := [],
             usage := some u }

/-- Frame 1 reports `prompt_tokens = 10`; frame 2 reports only
`completion_tokens = 5`. -/
def c3Frames : List (ParseOutcome Chunk) :=
  [c3FrameWithUsage { prompt_tokens := some 10, completion_tokens := none,
                      total_tokens := none, prompt_tokens_details := none,
                      completion_tokens_details := none },
   c3FrameWithUsage { prompt_tokens := none, completion_tokens := some 5,
                      total_tokens := none, prompt_tokens_details := none,
                      completion_tokens_details := none }]

/-- Claim C3, counterexample to the claim as stated: the latest frame that
reported `prompt_tokens` carried 10, but the final `finish` event does not
carry 10 as the input-token total — the second frame's usage object, which
omitted `prompt_tokens`, cleared it. -/
theorem c3_counterexample :
    (finishEvents (decodeStream genDefault c3Frames)).map
      (fun x => x.2.inputTotal) ≠ [some 10] := by
  decide

/-! ## Task pollers

`AI302SpeechModel.pollForResult` (src/unnamed/part_015, lines 145-192) and
`KlingO1Handler.pollTask` (kling-o1.ts, lines 32-92).  Network and time are
oracles: `aborted k` is the cancellation-signal state observed at the top
of iteration `k`, `respond k` the response to the k-th status query,
`elapsed k` the wall-clock milliseconds since start at the top of pass `k`.
The interval sleeps are not modelled: they influence neither the queries
issued nor the outcome. -/

inductive TaskStatus where
  | pending | processing | completed | failed
  deriving DecidableEq, Repr

structure TaskStatusResponse where
  task_id : String
  status : TaskStatus
  audio_url : Option String
  deriving DecidableEq, Repr

inductive PollOutcome where
  | ok (audioUrl : String) (calls : Nat)
  | error (message : String) (calls : Nat)
  deriving DecidableEq, Repr

/-- The body of `pollForResult`'s `for` loop; `attempt` is the loop index,
`remaining = maxAttempts - attempt` the fuel (the loop guard), and the
outcome records how many status queries a run started at attempt 0 has
issued on exit. -/
def pollAux (taskId : String) (maxAttempts : Nat) (aborted : Nat → Bool)
    (respond : Nat → TaskStatusResponse) :
    Nat → Nat → PollOutcome
  | attempt, 0 =>
    .error ("TTS task timed out after " ++ Nat.repr maxAttempts
      ++ " attempts: " ++ taskId) attempt
  | attempt, remaining + 1 =>
    if aborted attempt then .error "Request aborted" attempt
    else
      let st := respond attempt
      match st.status, st.audio_url with
      | .completed, some u =>
        if u = "" then
          pollAux taskId maxAttempts aborted respond (attempt + 1) remaining
        else .ok u (attempt + 1)
      | .completed, none =>
        pollAux taskId maxAttempts aborted respond (attempt + 1) remaining
      | .failed, _ => .error ("TTS task failed: " ++ taskId) (attempt + 1)
      | _, _ => pollAux taskId maxAttempts aborted respond (attempt + 1) remaining

def pollForResult (taskId : String) (maxAttempts : Nat) (aborted : Nat → Bool)
    (respond : Nat → TaskStatusResponse) : PollOutcome :=
  pollAux taskId maxAttempts aborted respond 0 maxAttempts

/-- The artifact-download step of `AI302SpeechModel.doGenerate` after an
async poll (source lines 259-275): `downloadAudio` runs exactly once when
the poll resolves, and not at all when the poll throws. -/
def speechFetchCount (taskId : String) (maxAttempts : Nat)
    (aborted : Nat → Bool) (respond : Nat → TaskStatusResponse) : Nat :=
  match pollForResult taskId maxAttempts aborted respond with
  | .ok _ _ => 1
  | .error _ _ => 0

inductive KlingResp where
  | httpError (status : Nat) (errorBody : String)
  | ok (code : Int) (message : Option String) (taskStatus : String)
       (taskStatusMsg : Option String) (images : Option (List String))
  deriving DecidableEq, Repr

inductive KlingOutcome where
  | ok (images : List String) (calls : Nat)
  | error (message : String) (calls : Nat)
  deriving DecidableEq, Repr

def MAX_POLL_TIME : Nat := 300000

/-- The JS fallback `s || d` on a possibly-absent string: the default
replaces a missing value and also the empty string, because the empty
string is falsy in JS. -/
def strOr : Option String → String → String
  | some s, d => if s = "" then d else s
  | none, d => d

/-- `KlingO1Handler.pollTask`'s `while (true)` loop, bounded by fuel
(`none` = fuel exhausted while the loop would continue); `calls` counts the
status queries issued so far. -/
def klingPollAux (aborted : Nat → Bool) (elapsed : Nat → Nat)
    (respond : Nat → KlingResp) : Nat → Nat → Nat → Option KlingOutcome
  | 0, _, _ => none
  | fuel + 1, pass, calls =>
    if aborted pass then some (.error "Task polling aborted" calls)
    else if MAX_POLL_TIME < elapsed pass then
      some (.error "Task polling timed out" calls)
    else
      match respond pass with
      | .httpError status body =>
        if status = 503 then
          klingPollAux aborted elapsed respond fuel (pass + 1) (calls + 1)
        else
          some (.error ("HTTP error! status: " ++ Nat.repr status
            ++ ", body: " ++ body) (calls + 1))
      | .ok code message taskStatus taskStatusMsg images =>
        if code ≠ 0 then
          some (.error ("API error: " ++ strOr message "Unknown error")
            (calls + 1))
        else if taskStatus = "failed" then
          some (.error ("Task failed: " ++ strOr taskStatusMsg "Unknown error")
            (calls + 1))
        else
          match images with
          | some imgs =>
            if taskStatus = "succeed" ∧ imgs.length > 0 then
              some (.ok imgs (calls + 1))
            else klingPollAux aborted elapsed respond fuel (pass + 1) (calls + 1)
          | none => klingPollAux aborted elapsed respond fuel (pass + 1) (calls + 1)

/-- The `downloadImages` step of `KlingO1Handler.processRequest` after the
poll (source lines 176-187): it runs once when the poll returns, never when
the poll throws. -/
def klingFetchCount (aborted : Nat → Bool) (elapsed : Nat → Nat)
    (respond : Nat → KlingResp) (fuel : Nat) : Nat :=
  match klingPollAux aborted elapsed respond fuel 0 0 with
  | some (.ok _ _) => 1
  | _ => 0

/-! ## Substring containment (for the task-identifier-in-message claims) -/

def leadsWith : List Char → List Char → Bool
  | _, [] => true
  | [], _ :: _ => false
  | a :: s, b :: t => a == b && leadsWith s t

def hasSub : List Char → List Char → Bool
  | [], pat => leadsWith [] pat
  | a :: s, pat => leadsWith (a :: s) pat || hasSub s pat

def strContains (s pat : String) : Bool := hasSub s.data pat.data

theorem leadsWithAppend : ∀ (pat rest : List Char),
    leadsWith (pat ++ rest) pat = true
  | [], rest => by cases rest <;> simp [leadsWith]
  | b :: t, rest => by simp [leadsWith, leadsWithAppend t rest]

theorem hasSubAppendLeft : ∀ (pre pat : List Char),
    hasSub (pre ++ pat) pat = true := by
  intro pre
  induction pre with
  | nil =>
    intro pat
    cases pat with
    | nil => rfl
    | cons a t =>
      have h := leadsWithAppend (a :: t) []
      rw [List.append_nil] at h
      simp [hasSub, h]
  | cons c pre' ih =>
    intro pat
    simp [hasSub, ih pat]

theorem strContainsAppend (pre tid : String) :
    strContains (pre ++ tid) tid = true := by
  have hdata : (pre ++ tid).data = pre.data ++ tid.data := by
    cases pre; cases tid; rfl
  unfold strContains
  rw [hdata]
  exact hasSubAppendLeft pre.data tid.data

/-! ## Poller step lemmas and claims C6-C9 -/

theorem pollAux_step_nonterminal (taskId : String) (N : Nat)
    (ab : Nat → Bool) (resp : Nat → TaskStatusResponse) (a r : Nat)
    (h1 : ab a = false)
    (h2 : (resp a).status ≠ .completed ∧ (resp a).status ≠ .failed) :
    pollAux taskId N ab resp a (r + 1) = pollAux taskId N ab resp (a + 1) r := by
  cases hs : (resp a).status with
  | pending => simp [pollAux, h1, hs]
  | processing => simp [pollAux, h1, hs]
  | completed => exact absurd hs h2.1
  | failed => exact absurd hs h2.2

/-- Claim C6: with an attempt budget of `N`, a status that never becomes
terminal makes the poller issue exactly `N` status queries and then fail
with the timeout error (the `calls` component of the outcome counts the
queries issued). -/
theorem c6_poll_timeout (taskId : String) (N : Nat) (aborted : Nat → Bool)
    (respond : Nat → TaskStatusResponse)
    (hab : ∀ k, k < N → aborted k = false)
    (hst : ∀ k, k < N →
      (respond k).status ≠ .completed ∧ (respond k).status ≠ .failed) :
    pollForResult taskId N aborted respond
      = .error ("TTS task timed out after " ++ Nat.repr N
          ++ " attempts: " ++ taskId) N := by
  suffices h : ∀ r a, a + r = N →
      (∀ k, a ≤ k → k < N → aborted k = false) →
      (∀ k, a ≤ k → k < N →
        (respond k).status ≠ .completed ∧ (respond k).status ≠ .failed) →
      pollAux taskId N aborted respond a r
        = .error ("TTS task timed out after " ++ Nat.repr N
            ++ " attempts: " ++ taskId) (a + r) by
    have hh := h N 0 (by omega) (fun k _ hk => hab k hk) (fun k _ hk => hst k hk)
    simpa [pollForResult] using hh
  intro r
  induction r with
  | zero =>
    intro a ha _ _
    simp [pollAux]
  | succ r' ih =>
    intro a ha hab' hst'
    have habA : aborted a = false := hab' a (Nat.le_refl a) (by omega)
    have hstA := hst' a (Nat.le_refl a) (by omega)
    rw [pollAux_step_nonterminal taskId N aborted respond a r' habA hstA]
    have hrec := ih (a + 1) (by omega)
      (fun k hk1 hk2 => hab' k (by omega) hk2)
      (fun k hk1 hk2 => hst' k (by omega) hk2)
    rw [hrec]
    have harith : a + 1 + r' = a + (r' + 1) := by omega
    rw [harith]

theorem c6_witness :
    pollForResult "T1" 2 (fun _ => false) (fun _ => ⟨"T1", .pending, none⟩)
      = .error ("TTS task timed out after " ++ Nat.repr 2
          ++ " attempts: " ++ "T1") 2 :=
  c6_poll_timeout "T1" 2 _ _ (by decide) (by decide)

theorem pollAux_failed_at (taskId : String) (N : Nat) (aborted : Nat → Bool)
    (respond : Nat → TaskStatusResponse) :
    ∀ (r a k : Nat), a + r = N → a ≤ k → k < N →
      (∀ j, a ≤ j → j ≤ k → aborted j = false) →
      (∀ j, a ≤ j → j < k →
        (respond j).status ≠ .completed ∧ (respond j).status ≠ .failed) →
      (respond k).status = .failed →
      pollAux taskId N aborted respond a r
        = .error ("TTS task failed: " ++ taskId) (k + 1) := by
  intro r
  induction r with
  | zero =>
    intro a k h1 h2 h3 _ _ _
    exfalso
    omega
  | succ r' ih =>
    intro a k h1 h2 h3 hab hpre hfail
    have habA : aborted a = false := hab a (Nat.le_refl a) h2
    by_cases hak : a = k
    · subst hak
      cases hu : (respond a).audio_url with
      | none => simp [pollAux, habA, hfail, hu]
      | some u => simp [pollAux, habA, hfail, hu]
    · have hlt : a < k := by omega
      have hnt := hpre a (Nat.le_refl a) hlt
      rw [pollAux_step_nonterminal taskId N aborted respond a r' habA hnt]
      exact ih (a + 1) k (by omega) (by omega) h3
        (fun j hj1 hj2 => hab j (by omega) hj2)
        (fun j hj1 hj2 => hpre j (by omega) hj2) hfail

/-- Claim C7 (amended): when the first terminal status is `failed`, the
speech poller throws `TTS task failed: <taskId>` — a message containing the
task identifier — and no artifact download is attempted; the Kling poller
also downloads nothing on failure, but its message carries the upstream
failure reason when one is present and non-empty, and the fixed text
`Task failed: Unknown error` when the upstream reason is absent or the
empty string — never the task identifier. -/
theorem c7_failed_task (taskId : String) (N : Nat) (aborted : Nat → Bool)
    (respond : Nat → TaskStatusResponse) (k : Nat)
    (hk : k < N)
    (hab : ∀ j, j ≤ k → aborted j = false)
    (hpre : ∀ j, j < k →
      (respond j).status ≠ .completed ∧ (respond j).status ≠ .failed)
    (hfail : (respond k).status = .failed) :
    pollForResult taskId N aborted respond
      = .error ("TTS task failed: " ++ taskId) (k + 1)
    ∧ strContains ("TTS task failed: " ++ taskId) taskId = true
    ∧ speechFetchCount taskId N aborted respond = 0
    ∧ (∀ (ab : Nat → Bool) (el : Nat → Nat) (resp : Nat → KlingResp)
         (fuel pass calls : Nat) (msg tmsg : Option String)
         (imgs : Option (List String)),
        ab pass = false → el pass ≤ MAX_POLL_TIME →
        resp pass = KlingResp.ok 0 msg "failed" tmsg imgs →
        (∀ m, tmsg = some m → ¬ m = "" →
          klingPollAux ab el resp (fuel + 1) pass calls
            = some (.error ("Task failed: " ++ m) (calls + 1)))
        ∧ (tmsg = none ∨ tmsg = some "" →
          klingPollAux ab el resp (fuel + 1) pass calls
            = some (.error "Task failed: Unknown error" (calls + 1)))) := by
  have hpoll : pollForResult taskId N aborted respond
      = .error ("TTS task failed: " ++ taskId) (k + 1) :=
    pollAux_failed_at taskId N aborted respond N 0 k (by omega) (by omega) hk
      (fun j _ hj => hab j hj) (fun j _ hj => hpre j hj) hfail
  refine ⟨hpoll, strContainsAppend _ _, ?_, ?_⟩
  · unfold speechFetchCount
    rw [hpoll]
  · intro ab el resp fuel pass calls msg tmsg imgs h1 h2 h3
    have h2x : ¬ MAX_POLL_TIME < el pass := by omega
    constructor
    · intro m hm hm0
      subst hm
      simp [klingPollAux, h1, h2x, h3, strOr, hm0]
    · intro hcase
      have hlit : ("Task failed: " ++ "Unknown error")
          = "Task failed: Unknown error" := by decide
      rcases hcase with hc | hc <;> subst hc <;>
        simp [klingPollAux, h1, h2x, h3, strOr, hlit]

theorem c7_witness :
    pollForResult "T1" 2 (fun _ => false) (fun _ => ⟨"T1", .failed, none⟩)
      = .error ("TTS task failed: " ++ "T1") 1 :=
  (c7_failed_task "T1" 2 _ _ 0 (by decide) (by decide) (by decide) (by decide)).1

/-- Claim C7, counterexample to the claim as stated: the Kling O1 poller's
failure message (`Task failed: <upstream reason>`) does not contain the
task identifier, and no artifact fetch happens. -/
theorem c7_counterexample :
    klingPollAux (fun _ => false) (fun _ => 0)
        (fun _ => KlingResp.ok 0 none "failed" (some "boom") none) 1 0 0
      = some (KlingOutcome.error "Task failed: boom" 1)
    ∧ strContains "Task failed: boom" "T1" = false
    ∧ klingFetchCount (fun _ => false) (fun _ => 0)
        (fun _ => KlingResp.ok 0 none "failed" (some "boom") none) 1 = 0 := by
  refine ⟨by decide, by decide, by decide⟩

/-- Claim C8: a `completed`/`succeed` status without a (non-empty) artifact
reference is treated as non-terminal — the speech poller continues when
`audio_url` is absent or empty and only ever returns with a non-empty url
taken from a `completed` response, and the Kling poller continues when the
image list is absent or empty. -/
theorem c8_succeeded_without_artifact :
    (∀ (taskId : String) (N : Nat) (ab : Nat → Bool)
       (resp : Nat → TaskStatusResponse) (a r : Nat),
      ab a = false → (resp a).status = .completed →
      ((resp a).audio_url = none ∨ (resp a).audio_url = some "") →
      pollAux taskId N ab resp a (r + 1) = pollAux taskId N ab resp (a + 1) r)
    ∧ (∀ (taskId : String) (N : Nat) (ab : Nat → Bool)
         (resp : Nat → TaskStatusResponse) (r a : Nat) (u : String) (n : Nat),
        pollAux taskId N ab resp a r = .ok u n →
        ¬ u = "" ∧ (resp (n - 1)).status = .completed
          ∧ (resp (n - 1)).audio_url = some u)
    ∧ (∀ (ab : Nat → Bool) (el : Nat → Nat) (resp : Nat → KlingResp)
         (fuel pass calls : Nat) (msg tmsg : Option String)
         (imgs : Option (List String)),
        ab pass = false → el pass ≤ MAX_POLL_TIME →
        resp pass = KlingResp.ok 0 msg "succeed" tmsg imgs →
        (imgs = none ∨ imgs = some []) →
        klingPollAux ab el resp (fuel + 1) pass calls
          = klingPollAux ab el resp fuel (pass + 1) (calls + 1)) := by
  refine ⟨?_, ?_, ?_⟩
  · intro taskId N ab resp a r h1 h2 h3
    rcases h3 with h3 | h3 <;> simp [pollAux, h1, h2, h3]
  · intro taskId N ab resp r
    induction r with
    | zero =>
      intro a u n h
      simp [pollAux] at h
    | succ r' ih =>
      intro a u n h
      by_cases habA : ab a
      · simp [pollAux, habA] at h
      · cases hs : (resp a).status with
        | completed =>
          cases hu : (resp a).audio_url with
          | none =>
            rw [show pollAux taskId N ab resp a (r' + 1)
                = pollAux taskId N ab resp (a + 1) r' by
              simp [pollAux, habA, hs, hu]] at h
            exact ih (a + 1) u n h
          | some v =>
            by_cases hv : v = ""
            · rw [show pollAux taskId N ab resp a (r' + 1)
                  = pollAux taskId N ab resp (a + 1) r' by
                simp [pollAux, habA, hs, hu, hv]] at h
              exact ih (a + 1) u n h
            · rw [show pollAux taskId N ab resp a (r' + 1)
                  = .ok v (a + 1) by simp [pollAux, habA, hs, hu, hv]] at h
              cases h
              refine ⟨hv, ?_, ?_⟩
              · simpa using hs
              · simpa using hu
        | failed =>
          simp [pollAux, habA, hs] at h
        | pending =>
          rw [pollAux_step_nonterminal taskId N ab resp a r' (by simpa using habA)
            (by rw [hs]; exact ⟨by simp, by simp⟩)] at h
          exact ih (a + 1) u n h
        | processing =>
          rw [pollAux_step_nonterminal taskId N ab resp a r' (by simpa using habA)
            (by rw [hs]; exact ⟨by simp, by simp⟩)] at h
          exact ih (a + 1) u n h
  · intro ab el resp fuel pass calls msg tmsg imgs h1 h2 h3 h4
    have h2x : ¬ MAX_POLL_TIME < el pass := by omega
    rcases h4 with h4 | h4 <;> subst h4 <;> simp [klingPollAux, h1, h2x, h3]

theorem c8_witness :
    pollAux "T1" 3 (fun _ => false) (fun _ => ⟨"T1", .completed, none⟩) 0 3
      = pollAux "T1" 3 (fun _ => false) (fun _ => ⟨"T1", .completed, none⟩) 1 2 :=
  c8_succeeded_without_artifact.1 "T1" 3 _ _ 0 2 (by decide) (by decide)
    (by decide)

theorem pollAux_abort_at (taskId : String) (N : Nat) (aborted : Nat → Bool)
    (respond : Nat → TaskStatusResponse) :
    ∀ (r a k : Nat), a + r = N → a ≤ k → k < N →
      (∀ j, a ≤ j → j < k → aborted j = false ∧
        (respond j).status ≠ .completed ∧ (respond j).status ≠ .failed) →
      aborted k = true →
      pollAux taskId N aborted respond a r = .error "Request aborted" k := by
  intro r
  induction r with
  | zero =>
    intro a k h1 h2 h3 _ _
    exfalso
    omega
  | succ r' ih =>
    intro a k h1 h2 h3 hpre habk
    by_cases hak : a = k
    · subst hak
      simp [pollAux, habk]
    · have hlt : a < k := by omega
      obtain ⟨habA, hnt⟩ := hpre a (Nat.le_refl a) hlt
      rw [pollAux_step_nonterminal taskId N aborted respond a r' habA hnt]
      exact ih (a + 1) k (by omega) (by omega) h3
        (fun j hj1 hj2 => hpre j (by omega) hj2) habk

/-- Claim C9: the cancellation signal is checked at the top of every poll
iteration, before the status query of that iteration: if it is triggered
at the start of iteration `k`, the speech poller fails with the abort error
having issued exactly the `k` earlier queries and none after; the Kling
poller likewise aborts any iteration without issuing its query. -/
theorem c9_abort_checked_each_iteration (taskId : String) (N : Nat)
    (aborted : Nat → Bool) (respond : Nat → TaskStatusResponse) (k : Nat)
    (hk : k < N)
    (hpre : ∀ j, j < k → aborted j = false ∧
      (respond j).status ≠ .completed ∧ (respond j).status ≠ .failed)
    (habk : aborted k = true) :
    pollForResult taskId N aborted respond = .error "Request aborted" k
    ∧ (∀ (ab : Nat → Bool) (el : Nat → Nat) (resp : Nat → KlingResp)
         (fuel pass calls : Nat),
        ab pass = true →
        klingPollAux ab el resp (fuel + 1) pass calls
          = some (.error "Task polling aborted" calls)) := by
  refine ⟨?_, ?_⟩
  · exact pollAux_abort_at taskId N aborted respond N 0 k (by omega) (by omega)
      hk (fun j _ hj => hpre j hj) habk
  · intro ab el resp fuel pass calls h1
    simp [klingPollAux, h1]

theorem c9_witness :
    pollForResult "T1" 3 (fun n => n == 1) (fun _ => ⟨"T1", .pending, none⟩)
      = .error "Request aborted" 1 :=
  (c9_abort_checked_each_iteration "T1" 3 _ _ 1 (by decide) (by decide)
    (by decide)).1

/-! ## Claim C10: non-streaming content assembly (doGenerate, lines 504-529) -/

structure RespToolCall where
  id : Option String
  name : String
  arguments : String
  deriving DecidableEq, Repr

structure RespMessage where
  content : Option String
  reasoning_content : Option String
  reasoning : Option String
  tool_calls : Option (List RespToolCall)
  deriving DecidableEq, Repr

inductive ContentPart where
  | reasoning (text : String)
  | text (text : String)
  | toolCall (toolCallId : String) (toolName : String) (input : String)
  deriving DecidableEq, Repr

def ContentPart.isReasoningPart : ContentPart → Bool
  | .reasoning _ => true
  | _ => false

def ContentPart.isTextPart : ContentPart → Bool
  | .text _ => true
  | _ => false

def ContentPart.isToolPart : ContentPart → Bool
  | .toolCall _ _ _ => true
  | _ => false

/-- The tool-call loop (source lines 520-529): each upstream call keeps its
id (`toolCall.id ?? generateId()`) or consumes one fresh identifier from
the supply. -/
def assembleToolCalls (gen : Nat → String) (n : Nat) :
    List RespToolCall → List ContentPart × Nat
  | [] => ([], n)
  | tc :: rest =>
    let idPair : String × Nat :=
      match tc.id with
      | some i => (i, n)
      | none => (gen n, n + 1)
    let r := assembleToolCalls gen idPair.2 rest
    (.toolCall idPair.1 tc.name tc.arguments :: r.1, r.2)

/-- The reasoning entry (source lines 507-511): selected by
`reasoning_content ?? reasoning`, included when non-null and non-empty. -/
def reasoningSeg (msg : RespMessage) : List ContentPart :=
  match msg.reasoning_content.or msg.reasoning with
  | some r => if r.length > 0 then [.reasoning r] else []
  | none => []

/-- The text entry (source lines 513-517). -/
def textSeg (msg : RespMessage) : List ContentPart :=
  match msg.content with
  | some t => if t.length > 0 then [.text t] else []
  | none => []

def toolSeg (gen : Nat → String) (msg : RespMessage) (n : Nat) :
    List ContentPart :=
  match msg.tool_calls with
  | some l => (assembleToolCalls gen n l).1
  | none => []

/-- The content list assembled by `doGenerate` (source lines 504-529). -/
def assembleContent (gen : Nat → String) (msg : RespMessage) (n : Nat) :
    List ContentPart :=
  reasoningSeg msg ++ textSeg msg ++ toolSeg gen msg n

theorem assembleToolCalls_all (gen : Nat → String) :
    ∀ (l : List RespToolCall) (n : Nat),
      (assembleToolCalls gen n l).1.all ContentPart.isToolPart = true := by
  intro l
  induction l with
  | nil => intro n; rfl
  | cons t0 rest ih =>
    intro n
    cases hid : t0.id <;>
      simp [assembleToolCalls, hid, ContentPart.isToolPart, ih]

theorem assembleToolCalls_get (gen : Nat → String) :
    ∀ (l : List RespToolCall) (n k : Nat) (tc : RespToolCall),
      l[k]? = some tc →
      ∃ id, (assembleToolCalls gen n l).1[k]?
          = some (.toolCall id tc.name tc.arguments)
        ∧ (∀ i, tc.id = some i → id = i)
        ∧ (tc.id = none → ∃ m, n ≤ m ∧ id = gen m) := by
  intro l
  induction l with
  | nil => intro n k tc h; simp at h
  | cons t0 rest ih =>
    intro n k tc h
    cases k with
    | zero =>
      have h0 : t0 = tc := by simpa using h
      subst h0
      cases hid : t0.id with
      | some i =>
        refine ⟨i, by simp [assembleToolCalls, hid], ?_, ?_⟩
        · intro j hj
          cases hj
          rfl
        · intro hn
          simp at hn
      | none =>
        refine ⟨gen n, by simp [assembleToolCalls, hid], ?_, ?_⟩
        · intro j hj
          simp at hj
        · intro _
          exact ⟨n, Nat.le_refl n, rfl⟩
    | succ k2 =>
      have h2 : rest[k2]? = some tc := by simpa using h
      cases hid : t0.id with
      | some i =>
        obtain ⟨id, h1, hgiven, hfresh⟩ := ih n k2 tc h2
        exact ⟨id, by simp [assembleToolCalls, hid, h1], hgiven, hfresh⟩
      | none =>
        obtain ⟨id, h1, hgiven, hfresh⟩ := ih (n + 1) k2 tc h2
        refine ⟨id, by simp [assembleToolCalls, hid, h1], hgiven, ?_⟩
        intro hn
        obtain ⟨m, hm1, hm2⟩ := hfresh hn
        exact ⟨m, by omega, hm2⟩

theorem filterAllTrue (p : ContentPart → Bool) (l : List ContentPart)
    (h : l.all p = true) : l.filter p = l := by
  induction l with
  | nil => rfl
  | cons a t ih =>
    simp only [List.all_cons, Bool.and_eq_true] at h
    simp [List.filter_cons, h.1, ih h.2]

theorem filterAllFalse (p q : ContentPart → Bool) (l : List ContentPart)
    (h : l.all q = true) (himp : ∀ x, q x = true → p x = false) :
    l.filter p = [] := by
  induction l with
  | nil => rfl
  | cons a t ih =>
    simp only [List.all_cons, Bool.and_eq_true] at h
    simp [List.filter_cons, himp a h.1, ih h.2]

theorem reasoningSeg_all (msg : RespMessage) :
    (reasoningSeg msg).all ContentPart.isReasoningPart = true := by
  unfold reasoningSeg
  cases hrc : msg.reasoning_content.or msg.reasoning with
  | none => rfl
  | some r => by_cases hr : r.length > 0 <;> simp [hr, ContentPart.isReasoningPart]

theorem textSeg_all (msg : RespMessage) :
    (textSeg msg).all ContentPart.isTextPart = true := by
  unfold textSeg
  cases hc : msg.content with
  | none => rfl
  | some t => by_cases ht : t.length > 0 <;> simp [ht, ContentPart.isTextPart]

theorem toolSeg_all (gen : Nat → String) (msg : RespMessage) (n : Nat) :
    (toolSeg gen msg n).all ContentPart.isToolPart = true := by
  unfold toolSeg
  cases htc : msg.tool_calls with
  | none => rfl
  | some l => exact assembleToolCalls_all gen l n

/-- Claim C10: the assembled content is ordered
reasoning-then-text-then-tool-calls; a reasoning entry carries exactly the
non-empty value selected by `reasoning_content ?? reasoning`, a text entry
exactly the non-empty message content; each tool call keeps its upstream
identifier when present and otherwise receives a fresh identifier drawn
from the generator at an index not used before this call. -/
theorem c10_generate_content_assembly (gen : Nat → String)
    (msg : RespMessage) (n : Nat) :
    (assembleContent gen msg n
        = (assembleContent gen msg n).filter ContentPart.isReasoningPart
          ++ (assembleContent gen msg n).filter ContentPart.isTextPart
          ++ (assembleContent gen msg n).filter ContentPart.isToolPart)
    ∧ (∀ r, ContentPart.reasoning r ∈ assembleContent gen msg n →
        msg.reasoning_content.or msg.reasoning = some r ∧ ¬ r = "")
    ∧ (∀ t, ContentPart.text t ∈ assembleContent gen msg n →
        msg.content = some t ∧ ¬ t = "")
    ∧ (∀ (l : List RespToolCall) (k : Nat) (tc : RespToolCall),
        msg.tool_calls = some l → l[k]? = some tc →
        ∃ id, (assembleToolCalls gen n l).1[k]?
            = some (.toolCall id tc.name tc.arguments)
          ∧ ContentPart.toolCall id tc.name tc.arguments
              ∈ assembleContent gen msg n
          ∧ (∀ i, tc.id = some i → id = i)
          ∧ (tc.id = none → ∃ m, n ≤ m ∧ id = gen m)) := by
  have hra := reasoningSeg_all msg
  have hta := textSeg_all msg
  have hca := toolSeg_all gen msg n
  refine ⟨?_, ?_, ?_, ?_⟩
  · -- ordering
    have e1 : ∀ x : ContentPart, ContentPart.isReasoningPart x = true →
        ContentPart.isTextPart x = false := by
      intro x hx; cases x <;> simp_all [ContentPart.isReasoningPart,
        ContentPart.isTextPart]
    have e2 : ∀ x : ContentPart, ContentPart.isReasoningPart x = true →
        ContentPart.isToolPart x = false := by
      intro x hx; cases x <;> simp_all [ContentPart.isReasoningPart,
        ContentPart.isToolPart]
    have e3 : ∀ x : ContentPart, ContentPart.isTextPart x = true →
        ContentPart.isReasoningPart x = false := by
      intro x hx; cases x <;> simp_all [ContentPart.isReasoningPart,
        ContentPart.isTextPart]
    have e4 : ∀ x : ContentPart, ContentPart.isTextPart x = true →
        ContentPart.isToolPart x = false := by
      intro x hx; cases x <;> simp_all [ContentPart.isTextPart,
        ContentPart.isToolPart]
    have e5 : ∀ x : ContentPart, ContentPart.isToolPart x = true →
        ContentPart.isReasoningPart x = false := by
      intro x hx; cases x <;> simp_all [ContentPart.isReasoningPart,
        ContentPart.isToolPart]
    have e6 : ∀ x : ContentPart, ContentPart.isToolPart x = true →
        ContentPart.isTextPart x = false := by
      intro x hx; cases x <;> simp_all [ContentPart.isTextPart,
        ContentPart.isToolPart]
    unfold assembleContent
    rw [List.filter_append, List.filter_append, List.filter_append,
      List.filter_append, List.filter_append, List.filter_append]
    rw [filterAllTrue _ _ hra, filterAllTrue _ _ hta, filterAllTrue _ _ hca,
      filterAllFalse _ _ _ hta e3, filterAllFalse _ _ _ hca e5,
      filterAllFalse _ _ _ hra e1, filterAllFalse _ _ _ hca e6,
      filterAllFalse _ _ _ hra e2, filterAllFalse _ _ _ hta e4]
    simp
  · -- reasoning entries
    intro r hmem
    unfold assembleContent at hmem
    rcases List.mem_append.mp hmem with h | h
    · rcases List.mem_append.mp h with h | h
      · cases hrc : msg.reasoning_content.or msg.reasoning with
        | none =>
          have hseg : reasoningSeg msg = [] := by
            unfold reasoningSeg; rw [hrc]
          rw [hseg] at h; cases h
        | some r0 =>
          have hseg : reasoningSeg msg
              = if r0.length > 0 then [ContentPart.reasoning r0] else [] := by
            unfold reasoningSeg; rw [hrc]
          rw [hseg] at h
          by_cases hr0 : r0.length > 0
          · rw [if_pos hr0] at h
            have : r = r0 := by
              have := List.mem_singleton.mp h
              cases this
              rfl
            subst this
            exact ⟨rfl, (strLengthPos r).mp hr0⟩
          · rw [if_neg hr0] at h; cases h
      · have := (List.all_eq_true.mp hta) _ h
        simp [ContentPart.isTextPart] at this
    · have := (List.all_eq_true.mp hca) _ h
      simp [ContentPart.isToolPart] at this
  · -- text entries
    intro t hmem
    unfold assembleContent at hmem
    rcases List.mem_append.mp hmem with h | h
    · rcases List.mem_append.mp h with h | h
      · have := (List.all_eq_true.mp hra) _ h
        simp [ContentPart.isReasoningPart] at this
      · cases hc : msg.content with
        | none =>
          have hseg : textSeg msg = [] := by
            unfold textSeg; rw [hc]
          rw [hseg] at h; cases h
        | some t0 =>
          have hseg : textSeg msg
              = if t0.length > 0 then [ContentPart.text t0] else [] := by
            unfold textSeg; rw [hc]
          rw [hseg] at h
          by_cases ht0 : t0.length > 0
          · rw [if_pos ht0] at h
            have : t = t0 := by
              have := List.mem_singleton.mp h
              cases this
              rfl
            subst this
            exact ⟨rfl, (strLengthPos t).mp ht0⟩
          · rw [if_neg ht0] at h; cases h
    · have := (List.all_eq_true.mp hca) _ h
      simp [ContentPart.isToolPart] at this
  · -- tool entries
    intro l k tc htc hk
    obtain ⟨id, h1, hgiven, hfresh⟩ := assembleToolCalls_get gen l n k tc hk
    refine ⟨id, h1, ?_, hgiven, hfresh⟩
    have hmem : ContentPart.toolCall id tc.name tc.arguments
        ∈ (assembleToolCalls gen n l).1 := by
      have := List.getElem?_eq_some_iff.mp h1
      obtain ⟨hlt, hget⟩ := this
      exact hget ▸ List.getElem_mem hlt
    unfold assembleContent toolSeg
    rw [htc]
    exact List.mem_append.mpr (Or.inr hmem)

def c10Msg : RespMessage :=
  { content := some "hi", reasoning_content := some "why", reasoning := none,
    tool_calls := some [⟨none, "f", "()"⟩, ⟨some "tid", "g", "[]"⟩] }

theorem c10_witness :
    (ContentPart.reasoning "why" ∈ assembleContent genDefault c10Msg 0)
    ∧ (c10Msg.reasoning_content.or c10Msg.reasoning = some "why"
        ∧ ¬ "why" = "") :=
  ⟨by decide,
   (c10_generate_content_assembly genDefault c10Msg 0).2.1 "why" (by decide)⟩

end AI302
